import Mathlib

/-!
Verification of the elm-sideload core (src/impl.ts, src/types.ts, src/gitIO.ts,
src/cli.ts) as a shallow embedding.

The embedding models the program state as a file system (a finite map from
path strings to file data plus a set of directories) together with a trace of
adapter events, and models the external collaborators (the git subprocess layer
and the user prompt) as fixed oracles carried in the `Runtime` value, mirroring
how the source passes a `runtime` record everywhere.  `ResultAsync` chains
become state-passing functions returning `Except CommandError` results; the
chains created eagerly by `config.sideloads.map(...)` and joined with
`ResultAsync.combine` are linearized in list order.
-/

namespace ElmSideload

/-- Splits a character list at every occurrence of `sep` (JS `String.split` on a
one-character separator: `"a/b".split("/") = ["a","b"]`, `"".split("/") = [""]`). -/
def chSplit (sep : Char) : List Char → List (List Char)
  | [] => [[]]
  | c :: rest =>
    let r := chSplit sep rest
    if c = sep then [] :: r
    else
      match r with
      | [] => [[c]]
      | h :: t => (c :: h) :: t

/-- JS `s.split(sep)` for a one-character separator. -/
def strSplit (s : String) (sep : Char) : List String :=
  (chSplit sep s.data).map (fun l => ⟨l⟩)

/-- Removes the first occurrence of `pat` from the list (JS
`s.replace(pat, "")`, which replaces only the first match). -/
def replaceFirstAux (pat : List Char) : List Char → List Char
  | [] => []
  | c :: rest =>
    if pat.isPrefixOf (c :: rest) then (c :: rest).drop pat.length
    else c :: replaceFirstAux pat rest

/-- JS `s.replace(pat, "")` (first occurrence only). -/
def replaceFirst (s pat : String) : String := ⟨replaceFirstAux pat.data s.data⟩

/-- JS `String.prototype.trim` (leading and trailing whitespace removed). -/
def strTrim (s : String) : String :=
  ⟨((s.data.dropWhile Char.isWhitespace).reverse.dropWhile Char.isWhitespace).reverse⟩

/-- `List.intercalate` for strings, written structurally so the kernel can
reduce it (JS `Array.prototype.join`). -/
def strIntercalate (sep : String) : List String → String
  | [] => ""
  | [s] => s
  | s :: rest => s ++ sep ++ strIntercalate sep rest

/-- String prefix test over the underlying character lists. -/
def strIsPre (p s : String) : Bool := p.data.isPrefixOf s.data

/-- `true` when `pat` occurs as a contiguous segment of `l`. -/
def segIn (pat : List Char) : List Char → Bool
  | [] => decide (pat = [])
  | c :: rest => pat.isPrefixOf (c :: rest) || segIn pat rest

/-- Substring test (used to state that an error message does or does not carry
a given piece of text). -/
def strContainsStr (s pat : String) : Bool := segIn pat.data s.data

/-- Node `path.join` on two segments.  The source only joins well-formed
relative segments, for which `path.join a b` is `a ++ "/" ++ b`. -/
def pathJoin (a b : String) : String := a ++ "/" ++ b

/-- Node `path.resolve(cwd, p)`: an absolute `p` is returned as is, a relative
`p` is joined onto `cwd`. -/
def pathResolve (cwd p : String) : String :=
  if strIsPre "/" p then p else pathJoin cwd p

/-- A hexadecimal digit (lowercase, as printed by `git rev-parse`). -/
def isHexCh (c : Char) : Bool := "0123456789abcdef".data.contains c

/-- A 40-character lowercase hexadecimal commit id. -/
def isSha40 (s : String) : Prop := s.data.length = 40 ∧ s.data.all isHexCh = true

/-! ## Data model (src/types.ts) -/

/-- `ConfigureInput.pinTo` (types.ts): either a branch name or a commit sha. -/
inductive PinTo where
  | branch (name : String)
  | sha (sha : String)
deriving DecidableEq, Repr

/-- `ConfigureInput` (types.ts): the CLI-side source, before resolution. -/
inductive ConfigureInput where
  | github (url : String) (pinTo : PinTo)
  | relative (path : String)
deriving DecidableEq, Repr

/-- `ConfigureSource` = `SideloadSource` (types.ts): the persisted source.
After resolution a github source is always pinned to a sha; the type has no
branch form. -/
inductive ConfigureSource where
  | github (url : String) (sha : String)
  | relative (path : String)
deriving DecidableEq, Repr

/-- `SideloadRegistration` (types.ts). -/
structure SideloadRegistration where
  originalPackageName : String
  originalPackageVersion : String
  sideloadedPackage : ConfigureSource
deriving DecidableEq, Repr

/-- `SideloadConfig` (types.ts). -/
structure SideloadConfig where
  elmJsonPath : String
  requireElmHome : Bool
  sideloads : List SideloadRegistration
deriving DecidableEq, Repr

/-- The four dependency buckets of `ElmJson.dependencies` (types.ts); each
`Record<string, string>` is modelled as an association list. -/
structure Deps where
  direct : List (String × String)
  indirect : List (String × String)
  testDirect : List (String × String)
  testIndirect : List (String × String)
deriving DecidableEq, Repr

/-- `ElmJson` (types.ts). -/
structure ElmJson where
  type : String
  sourceDirectories : List String
  elmVersion : String
  dependencies : Deps
deriving DecidableEq, Repr

/-- `ElmHome` (types.ts): where the elm home directory came from. -/
inductive ElmHomeV where
  | fromShellEnv (elmHome packagesPath : String)
  | fromOsDefault (elmHome packagesPath : String)
deriving DecidableEq, Repr

/-- The `packagesPath` field of either `ElmHome` variant. -/
def ElmHomeV.packagesPath : ElmHomeV → String
  | .fromShellEnv _ p => p
  | .fromOsDefault _ p => p

/-- `Environment` (types.ts). -/
structure Environment where
  elmHome : ElmHomeV
  cwd : String
  hasElmJson : Bool
  hasSideloadConfig : Bool
deriving DecidableEq, Repr

/-- `InstallCommand.mode` (types.ts). -/
inductive InstallMode where
  | interactive
  | always
  | dryRun
deriving DecidableEq, Repr

/-- `Command` (types.ts). -/
inductive Command where
  | help
  | init
  | configure (packageName : String) (source : ConfigureInput)
  | install (mode : InstallMode)
  | unload
deriving DecidableEq, Repr

/-- `gitIO.Error` (gitIO.ts). -/
inductive GitError where
  | repoNotFound (url : String)
  | shaNotFound (sha : String) (recentCommits : List String)
  | dirtyRepo (status : String)
  | networkError (message : String)
  | cloneError (url message : String)
  | checkoutError (sha message : String)
  | pullError (message : String)
  | commandError (command message : String)
deriving DecidableEq, Repr

/-- `FileError` (types.ts). -/
inductive FileErr where
  | fileNotFound
  | readError
  | writeError
  | permissionDenied
  | directoryNotFound
  | copyError
deriving DecidableEq, Repr

/-- `CommandError` (types.ts): the union of the string-literal validation and
runtime errors with `FileError`, `gitIO.Error` and `UserIOError`. -/
inductive CommandError where
  | noElmJsonFound
  | packageNotFoundInElmJson
  | invalidGithubUrl
  | invalidRelativePath
  | sideloadConfigNotFound
  | invalidSideloadConfig
  | couldNotReadElmJson
  | gitCloneFailed
  | invalidPackageName
  | packageCopyFailed
  | elmHomePathNotFound
  | unloadFailed
  | noElmHome
  | couldNotCreateRuntime
  | invalidArguments
  | gitNotAvailable
  | promptFailed
  | fileError (e : FileErr)
  | gitError (e : GitError)
deriving DecidableEq, Repr

/-- `AppliedChange.action` (types.ts). -/
inductive ChangeAction where
  | sideloaded
  | restored
  | downloaded
deriving DecidableEq, Repr

/-- `AppliedChange` (types.ts). -/
structure AppliedChange where
  packageName : String
  action : ChangeAction
  source : String
deriving DecidableEq, Repr

/-- `ExecutionResult` (types.ts); `changes` is optional in the source. -/
structure ExecutionResult where
  message : String
  changes : Option (List AppliedChange) := none
deriving DecidableEq, Repr

/-! ## File system model

The adapter in cli.ts (`realFileSystem`) runs over the host disk; we model the
disk as a finite map from absolute path strings to file data plus a list of
directory paths.  `JSON.parse`/`JSON.stringify` round-trips of the two known
document shapes are modelled structurally: a file holds either raw text, a
parsed `ElmJson`, or a parsed `SideloadConfig`. -/

/-- Contents of a file on the modelled disk. -/
inductive FileData where
  | text (s : String)
  | elmJson (e : ElmJson)
  | sideloadConfig (c : SideloadConfig)
deriving DecidableEq, Repr

/-- The modelled disk. -/
structure Fs where
  files : List (String × FileData)
  dirs : List String
deriving DecidableEq, Repr

/-- `q` lies at or below path `d`. -/
def underDir (d q : String) : Bool := q = d || strIsPre (d ++ "/") q

/-- Content of the file at `p`, if any. -/
def Fs.lookupFile (fs : Fs) (p : String) : Option FileData :=
  (fs.files.find? (fun e => e.1 = p)).map (·.2)

/-- `fs.promises.access`-style existence: a path exists when a file or
directory sits at it or below it. -/
def Fs.pathExists (fs : Fs) (p : String) : Bool :=
  fs.files.any (fun e => underDir p e.1) || fs.dirs.any (fun d => underDir p d)

/-- Create or overwrite the file at `p`. -/
def Fs.setFile (fs : Fs) (p : String) (d : FileData) : Fs :=
  { fs with files := (fs.files.filter (fun e => ¬ e.1 = p)) ++ [(p, d)] }

/-- Remove the file at `p` if present (`fs.promises.unlink` effect). -/
def Fs.removeFile (fs : Fs) (p : String) : Fs :=
  { fs with files := fs.files.filter (fun e => ¬ e.1 = p) }

/-- `fs.promises.mkdir(p, { recursive: true })` effect. -/
def Fs.mkDirAdd (fs : Fs) (p : String) : Fs :=
  { fs with dirs := fs.dirs ++ [p] }

/-- `fs.promises.rm(p, { recursive: true, force: true })` effect: removes the
whole subtree; succeeds even when absent. -/
def Fs.deleteTree (fs : Fs) (p : String) : Fs :=
  { files := fs.files.filter (fun e => ¬ underDir p e.1),
    dirs := fs.dirs.filter (fun d => ¬ underDir p d) }

/-- `fs.promises.cp(src, tgt, { recursive: true })` effect: every file at or
below `src` is copied to the corresponding path below `tgt`, overwriting files
already there; files below `tgt` with no counterpart below `src` are kept
(Node `cp` merges, it does not clear the target first, and it copies every
entry — there is no exclusion filter). -/
def Fs.copyTree (fs : Fs) (src tgt : String) : Fs :=
  let relocate : String → Option String := fun q =>
    if q = src then some tgt
    else if strIsPre (src ++ "/") q then some (tgt ++ ⟨q.data.drop src.data.length⟩)
    else none
  let moved : List (String × FileData) :=
    fs.files.filterMap (fun e => (relocate e.1).map (fun q => (q, e.2)))
  let movedDirs : List String := fs.dirs.filterMap relocate
  { files := (fs.files.filter (fun e => ¬ moved.any (fun m => m.1 = e.1))) ++ moved,
    dirs := fs.dirs ++ [tgt] ++ movedDirs }

/-! ## Collaborator oracles and the runtime -/

/-- Behaviour of the git subprocess layer (gitIO.ts) and of the remote world
it talks to, as a fixed oracle.  `statusPorcelain` is the output of
`git status --porcelain`; gitIO.ts derives `isClean` from it (line 100).
`repoFiles` is the working tree a successful clone of `url` materializes
(including the `.git` metadata directory a real clone creates).
`resolveBranch` collapses gitIO.ts's `git rev-parse origin/<branch>` with its
local-ref fallback into one answer. -/
structure GitOracle where
  cloneOk : String → String → Except GitError Unit
  repoFiles : String → List (String × FileData)
  checkoutOk : String → String → Except GitError Unit
  statusPorcelain : String → String
  recentCommits : String → Nat → List String
  pullOk : String → Except GitError Unit
  resolveBranch : String → String → Except GitError String
  shaExistsAnswer : String → String → Bool

/-- `Runtime` (types.ts): the command, the environment, and the collaborator
behaviours (`fileSystem` acts on the modelled `Fs`; `gitIO` and `userIO` are
the oracles). -/
structure Runtime where
  command : Command
  environment : Environment
  git : GitOracle
  promptAnswer : String → Option String

/-! ## The effect monad

A `ResultAsync CommandError α` computation is modelled as a function from the
current disk and event trace to a result, the new disk, and the extended
trace.  Errors short-circuit `bind` exactly as neverthrow `andThen` does,
keeping the state reached so far. -/

/-- Adapter-level events, recorded in order of execution. -/
inductive Event where
  | fsRead (path : String)
  | fsWrite (path : String) (content : FileData)
  | fsExists (path : String)
  | fsMkdir (path : String)
  | fsDeleteFile (path : String)
  | fsDeleteDir (path : String)
  | fsCopyDir (source target : String)
  | gitClone (url targetDir : String)
  | gitCheckout (repoDir sha : String)
  | gitPull (repoDir : String)
  | gitIsClean (repoDir : String)
  | gitRecentCommits (repoDir : String) (n : Nat)
  | gitResolveBranch (repoDir branch : String)
  | gitShaExists (repoDir sha : String)
  | userPrompt (message : String)
deriving DecidableEq, Repr

/-- The computation type: state-passing over disk and trace. -/
def M (α : Type) : Type := Fs → List Event → Except CommandError α × Fs × List Event

/-- neverthrow `ok`. -/
def M.pure {α : Type} (a : α) : M α := fun fs tr => (.ok a, fs, tr)

/-- neverthrow `err`. -/
def M.fail {α : Type} (e : CommandError) : M α := fun fs tr => (.error e, fs, tr)

/-- neverthrow `andThen`. -/
def M.bind {α β : Type} (x : M α) (f : α → M β) : M β := fun fs tr =>
  match x fs tr with
  | (.ok a, fs1, tr1) => f a fs1 tr1
  | (.error e, fs1, tr1) => (.error e, fs1, tr1)

/-- neverthrow `map`. -/
def M.map {α β : Type} (f : α → β) (x : M α) : M β :=
  M.bind x (fun a => M.pure (f a))

/-- neverthrow `mapErr`. -/
def M.mapErr {α : Type} (f : CommandError → CommandError) (x : M α) : M α :=
  fun fs tr =>
    match x fs tr with
    | (.ok a, fs1, tr1) => (.ok a, fs1, tr1)
    | (.error e, fs1, tr1) => (.error (f e), fs1, tr1)

/-- neverthrow `orElse` with a constant fallback (the source never inspects
the swallowed error). -/
def M.orElse {α : Type} (x : M α) (y : M α) : M α := fun fs tr =>
  match x fs tr with
  | (.ok a, fs1, tr1) => (.ok a, fs1, tr1)
  | (.error _, fs1, tr1) => y fs1 tr1

/-! ## Adapter operations (cli.ts `realFileSystem`, gitIO.ts `createGitIO`) -/

/-- `fileSystem.readFile`: missing file is `fileNotFound` (cli.ts maps ENOENT
so, other errors to `readError`, which the model cannot produce). -/
def fsReadFile (p : String) : M FileData := fun fs tr =>
  match fs.lookupFile p with
  | some d => (.ok d, fs, tr ++ [.fsRead p])
  | none => (.error (.fileError .fileNotFound), fs, tr ++ [.fsRead p])

/-- `fileSystem.writeFile`: always succeeds on the modelled disk. -/
def fsWriteFile (p : String) (d : FileData) : M Unit := fun fs tr =>
  (.ok (), fs.setFile p d, tr ++ [.fsWrite p d])

/-- `fileSystem.exists`: never fails (cli.ts recovers every error to
`false`). -/
def fsExistsQ (p : String) : M Bool := fun fs tr =>
  (.ok (fs.pathExists p), fs, tr ++ [.fsExists p])

/-- `fileSystem.mkdir` (recursive): always succeeds on the modelled disk. -/
def fsMkdir (p : String) : M Unit := fun fs tr =>
  (.ok (), fs.mkDirAdd p, tr ++ [.fsMkdir p])

/-- `fileSystem.deleteFile` (`fs.promises.unlink`): fails with `writeError`
when the file is absent (cli.ts maps every unlink failure to `writeError`). -/
def fsDeleteFile (p : String) : M Unit := fun fs tr =>
  if fs.files.any (fun e => e.1 = p) then
    (.ok (), fs.removeFile p, tr ++ [.fsDeleteFile p])
  else
    (.error (.fileError .writeError), fs, tr ++ [.fsDeleteFile p])

/-- `fileSystem.deleteDir` (`fs.promises.rm` recursive, force): always
succeeds. -/
def fsDeleteDir (p : String) : M Unit := fun fs tr =>
  (.ok (), fs.deleteTree p, tr ++ [.fsDeleteDir p])

/-- `fileSystem.copyDirectoryRecursive` (`fs.promises.cp` recursive): fails
with `copyError` when the source does not exist, else merges the source
subtree into the target. -/
def fsCopyDir (src tgt : String) : M Unit := fun fs tr =>
  if fs.pathExists src then
    (.ok (), fs.copyTree src tgt, tr ++ [.fsCopyDir src tgt])
  else
    (.error (.fileError .copyError), fs, tr ++ [.fsCopyDir src tgt])

/-- `gitIO.clone`: on success the clone materializes the repository's working
tree (oracle `repoFiles`) under `tgt`. -/
def gitClone (rt : Runtime) (url tgt : String) : M Unit := fun fs tr =>
  match rt.git.cloneOk url tgt with
  | .ok _ =>
    let placed := (rt.git.repoFiles url).map (fun e => (pathJoin tgt e.1, e.2))
    let fs1 := placed.foldl (fun acc e => acc.setFile e.1 e.2) (fs.mkDirAdd tgt)
    (.ok (), fs1, tr ++ [.gitClone url tgt])
  | .error e => (.error (.gitError e), fs, tr ++ [.gitClone url tgt])

/-- `gitIO.checkout` (the pinned working-tree content is not tracked beyond
the clone's materialization). -/
def gitCheckout (rt : Runtime) (repoDir sha : String) : M Unit := fun fs tr =>
  match rt.git.checkoutOk repoDir sha with
  | .ok _ => (.ok (), fs, tr ++ [.gitCheckout repoDir sha])
  | .error e => (.error (.gitError e), fs, tr ++ [.gitCheckout repoDir sha])

/-- `gitIO.pull` (branch-aware pull with detached-HEAD fetch fallback,
collapsed into one oracle answer). -/
def gitPull (rt : Runtime) (repoDir : String) : M Unit := fun fs tr =>
  match rt.git.pullOk repoDir with
  | .ok _ => (.ok (), fs, tr ++ [.gitPull repoDir])
  | .error e => (.error (.gitError e), fs, tr ++ [.gitPull repoDir])

/-- `gitIO.isClean` (gitIO.ts line 100): the trimmed
`git status --porcelain` output is empty. -/
def gitIsClean (rt : Runtime) (repoDir : String) : M Bool := fun fs tr =>
  (.ok (strTrim (rt.git.statusPorcelain repoDir) = ""), fs, tr ++ [.gitIsClean repoDir])

/-- `gitIO.getRecentCommits`. -/
def gitRecentCommits (rt : Runtime) (repoDir : String) (n : Nat) : M (List String) :=
  fun fs tr => (.ok (rt.git.recentCommits repoDir n), fs, tr ++ [.gitRecentCommits repoDir n])

/-- `gitIO.resolveBranchToSha`. -/
def gitResolveBranchToSha (rt : Runtime) (repoDir branch : String) : M String := fun fs tr =>
  match rt.git.resolveBranch repoDir branch with
  | .ok sha => (.ok sha, fs, tr ++ [.gitResolveBranch repoDir branch])
  | .error e => (.error (.gitError e), fs, tr ++ [.gitResolveBranch repoDir branch])

/-- `gitIO.shaExists` (never fails: gitIO.ts recovers to `false`). -/
def gitShaExistsQ (rt : Runtime) (repoDir sha : String) : M Bool := fun fs tr =>
  (.ok (rt.git.shaExistsAnswer repoDir sha), fs, tr ++ [.gitShaExists repoDir sha])

/-- `userIO.prompt`. -/
def userPrompt (rt : Runtime) (message : String) : M String := fun fs tr =>
  match rt.promptAnswer message with
  | some a => (.ok a, fs, tr ++ [.userPrompt message])
  | none => (.error .promptFailed, fs, tr ++ [.userPrompt message])

/-! ## Path construction used by impl.ts -/

/-- `path.join(runtime.environment.cwd, "elm.sideload.json")`. -/
def configPathOf (rt : Runtime) : String := pathJoin rt.environment.cwd "elm.sideload.json"

/-- `path.join(runtime.environment.cwd, "elm.json")`. -/
def elmJsonPathOf (rt : Runtime) : String := pathJoin rt.environment.cwd "elm.json"

/-- `path.join(runtime.environment.cwd, ".elm.sideload.cache")`. -/
def cacheDirOf (rt : Runtime) : String := pathJoin rt.environment.cwd ".elm.sideload.cache"

/-- `path.join(runtime.environment.cwd, "elm-stuff", "0.19.1")`. -/
def elmStuffPathOf (rt : Runtime) : String :=
  pathJoin (pathJoin rt.environment.cwd "elm-stuff") "0.19.1"

/-- `repoUrlParts[repoUrlParts.length - 2]` for `url.split("/")` (impl.ts). -/
def repoAuthorOf (url : String) : String :=
  let parts := strSplit url '/'
  parts.getD (parts.length - 2) ""

/-- `repoUrlParts[repoUrlParts.length - 1].replace(".git", "")` (impl.ts). -/
def repoNameOf (url : String) : String :=
  let parts := strSplit url '/'
  replaceFirst (parts.getD (parts.length - 1) "") ".git"

/-- The cache clone directory `path.join(cacheDir, author, repoName)`. -/
def cachedRepoPathOf (cacheDir url : String) : String :=
  pathJoin (pathJoin cacheDir (repoAuthorOf url)) (repoNameOf url)

/-- `path.join(elmHomePackagesPath, author, name, version)`. -/
def packageSlotDir (pkgs author name version : String) : String :=
  pathJoin (pathJoin (pathJoin pkgs author) name) version

/-- The package slot of a registration: `pkgs/author/name/version`, with
author and name taken from splitting `originalPackageName` on `/` exactly as
`copyPackageToElmHome` and `removeSideloadedPackage` do. -/
def slotPath (pkgs : String) (r : SideloadRegistration) : String :=
  let parts := strSplit r.originalPackageName '/'
  packageSlotDir pkgs (parts.getD 0 "") (parts.getD 1 "") r.originalPackageVersion

/-! ## Manifest queries (impl.ts lines 597-618) -/

/-- JS `a || b` on string-or-absent values: an absent or empty string falls
through to the right operand. -/
def jsOr (a b : Option String) : Option String :=
  match a with
  | some s => if s = "" then b else some s
  | none => b

/-- JS `record[key]`: the value, if the key is present. -/
def recLookup (r : List (String × String)) (k : String) : Option String :=
  (r.find? (fun e => e.1 = k)).map (·.2)

/-- JS `key in record`. -/
def recHas (r : List (String × String)) (k : String) : Bool :=
  r.any (fun e => e.1 = k)

/-- `checkPackageInElmJson` (impl.ts lines 597-606): `in`-membership across
the four dependency buckets. -/
def checkPackageInElmJson (e : ElmJson) (p : String) : Bool :=
  recHas e.dependencies.direct p || recHas e.dependencies.indirect p ||
  recHas e.dependencies.testDirect p || recHas e.dependencies.testIndirect p

/-- `getPackageVersion` (impl.ts lines 608-618): the JS `||` chain
`direct[p] || indirect[p] || test.direct[p] || test.indirect[p] || null`,
which skips absent AND empty-string values (JS truthiness). -/
def getPackageVersion (e : ElmJson) (p : String) : Option String :=
  jsOr (recLookup e.dependencies.direct p)
    (jsOr (recLookup e.dependencies.indirect p)
      (jsOr (recLookup e.dependencies.testDirect p)
        (jsOr (recLookup e.dependencies.testIndirect p) none)))

/-! ## Loading the two documents (impl.ts lines 566-595) -/

/-- Lift a plain `Result` into the effect monad (neverthrow
`asyncAndThen` / `Result.andThen` interplay). -/
def M.ofExcept {α : Type} (x : Except CommandError α) : M α := fun fs tr => (x, fs, tr)

/-- `loadElmJson` (impl.ts): read `cwd/elm.json` and parse it.  A file that is
not a parsed `ElmJson` document models text `JSON.parse` rejects (or a
document of the wrong shape) and yields `couldNotReadElmJson`. -/
def loadElmJson (rt : Runtime) : M ElmJson :=
  M.bind (fsReadFile (elmJsonPathOf rt)) (fun d =>
    match d with
    | .elmJson e => M.pure e
    | _ => M.fail .couldNotReadElmJson)

/-- `loadSideloadConfig` (impl.ts): read `cwd/elm.sideload.json` (any read
failure becomes `sideloadConfigNotFound`) and parse it. -/
def loadSideloadConfig (rt : Runtime) : M SideloadConfig :=
  M.bind (M.mapErr (fun _ => .sideloadConfigNotFound) (fsReadFile (configPathOf rt)))
    (fun d =>
      match d with
      | .sideloadConfig c => M.pure c
      | _ => M.fail .invalidSideloadConfig)

/-! ## Configure command (impl.ts lines 183-230, 476-525) -/

/-- `resolveInputToSource` (impl.ts lines 476-525): a relative input is
returned as is; a sha-pinned github input is cloned into the cache and checked
out; a branch-pinned github input is cloned, the branch resolved to a sha,
that sha checked out, and the *resolved* sha returned. -/
def resolveInputToSource (rt : Runtime) (input : ConfigureInput) : M ConfigureSource :=
  match input with
  | .relative p => M.pure (.relative p)
  | .github url pin =>
    let targetDir := cachedRepoPathOf (cacheDirOf rt) url
    match pin with
    | .sha sha =>
      M.map (fun _ => ConfigureSource.github url sha)
        (M.bind (gitClone rt url targetDir) (fun _ => gitCheckout rt targetDir sha))
    | .branch branch =>
      M.map (fun sha => ConfigureSource.github url sha)
        (M.bind (gitClone rt url targetDir) (fun _ =>
          M.bind (gitResolveBranchToSha rt targetDir branch) (fun sha =>
            M.map (fun _ => sha) (gitCheckout rt targetDir sha))))

/-- `createRegistration` (impl.ts lines 191-211): look up the version; on a
truthy version, replace any registration with the same `originalPackageName`
(filter) and append the new one — the registry upsert. -/
def createRegistration (elmJson : ElmJson) (config : SideloadConfig)
    (packageName : String) (resolvedSource : ConfigureSource) :
    Except CommandError SideloadConfig :=
  match getPackageVersion elmJson packageName with
  | some v =>
    .ok { config with
          sideloads :=
            (config.sideloads.filter (fun s => ¬ s.originalPackageName = packageName)) ++
            [{ originalPackageName := packageName, originalPackageVersion := v,
               sideloadedPackage := resolvedSource }] }
  | none => .error .packageNotFoundInElmJson

/-- `saveConfig` inside `executeConfigure`: serialize and write the
configuration. -/
def saveConfig (rt : Runtime) (packageName : String) (config : SideloadConfig) :
    M ExecutionResult :=
  M.map (fun _ => { message := "Configured sideload for " ++ packageName })
    (fsWriteFile (configPathOf rt) (.sideloadConfig config))

/-- `executeConfigure` (impl.ts lines 183-230): resolve the input first, then
load and gate on the manifest, then load the existing configuration, upsert,
and save. -/
def executeConfigure (rt : Runtime) (packageName : String) (source : ConfigureInput) :
    M ExecutionResult :=
  M.bind (resolveInputToSource rt source) (fun resolvedSource =>
    M.bind
      (M.bind (loadElmJson rt) (fun elmJson =>
        if checkPackageInElmJson elmJson packageName then M.pure elmJson
        else M.fail .packageNotFoundInElmJson))
      (fun elmJson =>
        M.bind
          (M.bind (loadSideloadConfig rt) (fun config =>
            M.ofExcept (createRegistration elmJson config packageName resolvedSource)))
          (fun config => saveConfig rt packageName config)))

/-! ## Install command (impl.ts lines 236-385, 527-560) -/

/-- `copyPackageToElmHome` (impl.ts lines 527-560): split the package name,
then delete the two compiled-artifact cache files (each `orElse`-recovered, so
absence is success), `mkdir` the slot, recursively copy the source over it,
and write the zero-byte `.elm-sideload` marker; any error of that chain is
collapsed to `packageCopyFailed`. -/
def copyPackageToElmHome (_rt : Runtime) (sourcePath packageName version pkgs : String) :
    M String :=
  let parts := strSplit packageName '/'
  let author := parts.getD 0 ""
  let name := parts.getD 1 ""
  if author = "" || name = "" then M.fail .invalidPackageName
  else
    let targetDir := packageSlotDir pkgs author name version
    M.mapErr (fun _ => .packageCopyFailed)
      (M.map (fun _ => targetDir)
        (M.bind
          (M.orElse
            (M.bind (M.orElse (fsDeleteFile (pathJoin targetDir "artifacts.dat")) (M.pure ()))
              (fun _ => fsDeleteFile (pathJoin targetDir "artifacts.x.dat")))
            (M.pure ()))
          (fun _ =>
            M.bind (fsMkdir targetDir) (fun _ =>
              M.bind (fsCopyDir sourcePath targetDir) (fun _ =>
                fsWriteFile (pathJoin targetDir ".elm-sideload") (.text ""))))))

/-- `ensureRepoIsCached` inside `installSideload` (impl.ts lines 263-304): a
cached repository is checked for cleanliness (dirty aborts with the last 5
commits), pulled, checked for the pinned sha (missing sha aborts with the
last 10 commits) and checked out; an uncached repository is cloned fresh and
checked out. -/
def ensureRepoIsCached (rt : Runtime) (url sha cachedRepoPath : String) : M String :=
  M.bind (fsExistsQ cachedRepoPath) (fun ex =>
    if ex then
      M.bind
        (M.bind (gitIsClean rt cachedRepoPath) (fun isClean =>
          if !isClean then
            M.bind (gitRecentCommits rt cachedRepoPath 5) (fun commits =>
              M.fail (.gitError (.dirtyRepo
                ("Repository at " ++ cachedRepoPath ++
                 " has uncommitted changes. Recent commits:\n" ++
                 strIntercalate "\n" commits))))
          else M.pure ()))
        (fun _ =>
          M.bind (gitPull rt cachedRepoPath) (fun _ =>
            M.bind (gitShaExistsQ rt cachedRepoPath sha) (fun shaEx =>
              M.bind
                (if !shaEx then
                  M.bind (gitRecentCommits rt cachedRepoPath 10) (fun commits =>
                    M.fail (.gitError (.shaNotFound sha commits)))
                else M.pure ())
                (fun _ =>
                  M.map (fun _ => cachedRepoPath) (gitCheckout rt cachedRepoPath sha)))))
    else
      M.map (fun _ => cachedRepoPath)
        (M.bind (gitClone rt url cachedRepoPath) (fun _ =>
          gitCheckout rt cachedRepoPath sha)))

/-- `installSideload` (impl.ts lines 248-335): one registration's
acquire-then-apply chain. -/
def installSideload (rt : Runtime) (sideload : SideloadRegistration)
    (cacheDir pkgs : String) : M AppliedChange :=
  match sideload.sideloadedPackage with
  | .github url sha =>
    let cachedRepoPath := cachedRepoPathOf cacheDir url
    M.map (fun _ => { packageName := sideload.originalPackageName,
                      action := .sideloaded, source := url })
      (M.bind (ensureRepoIsCached rt url sha cachedRepoPath) (fun clonedPath =>
        copyPackageToElmHome rt clonedPath sideload.originalPackageName
          sideload.originalPackageVersion pkgs))
  | .relative p =>
    let sourcePath := pathResolve rt.environment.cwd p
    M.map (fun _ => { packageName := sideload.originalPackageName,
                      action := .sideloaded, source := p })
      (copyPackageToElmHome rt sourcePath sideload.originalPackageName
        sideload.originalPackageVersion pkgs)

/-- Runs one registration step per list element, threading disk and trace.
The source creates every `ResultAsync` chain eagerly
(`config.sideloads.map(...)`), so every chain runs regardless of the others'
failures; we linearize the chains in list order and collect each chain's own
result. -/
def runAll {α : Type} (step : SideloadRegistration → M α) :
    List SideloadRegistration → Fs → List Event →
      List (Except CommandError α) × Fs × List Event
  | [], fs, tr => ([], fs, tr)
  | r :: rs, fs, tr =>
    match step r fs tr with
    | (res, fs1, tr1) =>
      match runAll step rs fs1 tr1 with
      | (ress, fs2, tr2) => (res :: ress, fs2, tr2)

/-- `ResultAsync.combine`: the first error in list order, or the list of all
successes. -/
def combineResults {α : Type} : List (Except CommandError α) → Except CommandError (List α)
  | [] => .ok []
  | .error e :: _ => .error e
  | .ok a :: rest => (combineResults rest).map (fun l => a :: l)

/-- `performInstallation` (impl.ts lines 337-345): all chains, combined. -/
def performInstallation (rt : Runtime) (config : SideloadConfig)
    (cacheDir pkgs : String) : M (List AppliedChange) := fun fs tr =>
  match runAll (fun s => installSideload rt s cacheDir pkgs) config.sideloads fs tr with
  | (results, fs1, tr1) => (combineResults results, fs1, tr1)

/-- `bustElmCache` (impl.ts lines 460-474): delete `cwd/elm-stuff/0.19.1` when
it exists; every error becomes `writeError`. -/
def bustElmCache (rt : Runtime) : M Unit :=
  M.mapErr (fun _ => .fileError .writeError)
    (M.bind (fsExistsQ (elmStuffPathOf rt)) (fun ex =>
      if ex then fsDeleteDir (elmStuffPathOf rt) else M.pure ()))

/-- `validateElmJsonExists` inside `executeInstall`. -/
def validateElmJsonExists (rt : Runtime) : M Unit :=
  if rt.environment.hasElmJson then M.pure () else M.fail .noElmJsonFound

/-- `ensureCacheDirectory` (impl.ts lines 243-246): `mkdir` the cache
directory and return its path — executed in every install mode, dry-run
included. -/
def ensureCacheDirectory (rt : Runtime) : M String :=
  M.map (fun _ => cacheDirOf rt) (fsMkdir (cacheDirOf rt))

/-- The inline `elmHomePackagesPath` resolution of `executeInstall` and
`executeUnload`: `requireElmHome` demands the shell-env variant. -/
def elmHomePackagesPathResult (env : Environment) (config : SideloadConfig) :
    Except CommandError String :=
  if config.requireElmHome then
    match env.elmHome with
    | .fromShellEnv _ pp => .ok pp
    | .fromOsDefault _ _ => .error .noElmHome
  else .ok env.elmHome.packagesPath

/-- The dry-run change list of `executeInstall`: one entry per registration,
built without touching the sources. -/
def dryRunChanges (config : SideloadConfig) : List AppliedChange :=
  config.sideloads.map (fun s =>
    { packageName := s.originalPackageName, action := .sideloaded,
      source := match s.sideloadedPackage with
                | .github url _ => url
                | .relative p => p })

/-- `createResult` inside `executeInstall`. -/
def installMessage (mode : InstallMode) (n : Nat) : String :=
  if mode = .dryRun then "Would install " ++ toString n ++ " sideloads (dry-run mode)"
  else "Successfully installed " ++ toString n ++ " sideloads"

/-- `executeInstall` (impl.ts lines 236-385). -/
def executeInstall (rt : Runtime) (mode : InstallMode) : M ExecutionResult :=
  M.map (fun changes => { message := installMessage mode changes.length,
                          changes := some changes })
    (M.bind (validateElmJsonExists rt) (fun _ =>
      M.bind (loadSideloadConfig rt) (fun config =>
        M.bind (M.ofExcept (elmHomePackagesPathResult rt.environment config)) (fun pkgs =>
          M.bind (ensureCacheDirectory rt) (fun cacheDir =>
            if mode = .dryRun then M.pure (dryRunChanges config)
            else
              M.bind (performInstallation rt config cacheDir pkgs) (fun output =>
                M.map (fun _ => output) (bustElmCache rt)))))))

/-! ## Unload command (impl.ts lines 391-454) -/

/-- `removeSideloadedPackage` inside `executeUnload`: delete the slot when it
exists, succeed as a no-op when absent; chain errors become `unloadFailed`. -/
def removeSideloadedPackage (packageName version pkgs : String) : M AppliedChange :=
  let parts := strSplit packageName '/'
  let author := parts.getD 0 ""
  let name := parts.getD 1 ""
  if author = "" || name = "" then M.fail .invalidPackageName
  else
    let packageDir := packageSlotDir pkgs author name version
    M.mapErr (fun _ => .unloadFailed)
      (M.map (fun _ => { packageName := packageName, action := .restored,
                         source := "official package repository" })
        (M.bind (fsExistsQ packageDir) (fun ex =>
          if ex then fsDeleteDir packageDir else M.pure ())))

/-- `performUnload` (impl.ts lines 426-435): all removal chains, combined. -/
def performUnload (config : SideloadConfig) (pkgs : String) : M (List AppliedChange) :=
  fun fs tr =>
    match runAll
        (fun s => removeSideloadedPackage s.originalPackageName
          s.originalPackageVersion pkgs)
        config.sideloads fs tr with
    | (results, fs1, tr1) => (combineResults results, fs1, tr1)

/-- `executeUnload` (impl.ts lines 391-454): load the configuration, resolve
the packages root, bust the compiler cache, then remove every slot.  The
configuration file itself is never written. -/
def executeUnload (rt : Runtime) : M ExecutionResult :=
  M.map (fun changes => { message := "Successfully unloaded " ++
                            toString changes.length ++ " sideloads",
                          changes := some changes })
    (M.bind (loadSideloadConfig rt) (fun config =>
      M.bind (M.ofExcept (elmHomePackagesPathResult rt.environment config)) (fun pkgs =>
        M.bind (bustElmCache rt) (fun _ => performUnload config pkgs))))

/-! ## Init command and the dispatcher (impl.ts lines 80-177) -/

/-- The CLI help text (impl.ts lines 18-74), abbreviated to its first line;
its contents play no role in any verified property. -/
def helpText : String := "elm-sideload: congratulations, you can write javascript again"

/-- `answer.toLowerCase().trim().startsWith("y")`. -/
def answerIsYes (a : String) : Bool :=
  strIsPre "y" (strTrim ⟨a.data.map Char.toLower⟩)

/-- The prompt text of `executeInit` (contents immaterial; distinguished per
`ElmHome` variant as in the source). -/
def initPromptMessage (e : ElmHomeV) : String :=
  match e with
  | .fromShellEnv h _ => "An ELM_HOME was found at: " ++ h
  | .fromOsDefault h _ => "No ELM_HOME was found; defaulting to " ++ h

/-- `executeInit` (impl.ts lines 121-177): refuse when a configuration exists
or no manifest exists, prompt for the ELM_HOME policy, then write the fresh
configuration, create the cache directory, and append to `.gitignore`
(a missing `.gitignore` is treated as empty, not as an error). -/
def executeInit (rt : Runtime) : M ExecutionResult :=
  M.bind
    (if rt.environment.hasSideloadConfig then M.fail .invalidSideloadConfig
     else if !rt.environment.hasElmJson then M.fail .noElmJsonFound
     else M.pure ())
    (fun _ =>
      M.bind
        (M.map answerIsYes (userPrompt rt (initPromptMessage rt.environment.elmHome)))
        (fun requireElmHome =>
          let config : SideloadConfig :=
            { elmJsonPath := "elm.json", requireElmHome := requireElmHome, sideloads := [] }
          let gitignorePath := pathJoin rt.environment.cwd ".gitignore"
          M.bind (fsWriteFile (configPathOf rt) (.sideloadConfig config)) (fun _ =>
            M.bind (fsMkdir (cacheDirOf rt)) (fun _ =>
              M.map
                (fun _ =>
                  { message := "Created elm.sideload.json, .elm.sideload.cache directory, and updated .gitignore" })
                (M.bind
                  (M.orElse
                    (M.map
                      (fun d =>
                        let content := match d with | .text s => s | _ => ""
                        if strContainsStr content ".elm.sideload.cache" then content
                        else content ++ "\n.elm.sideload.cache\n")
                      (fsReadFile gitignorePath))
                    (M.pure ".elm.sideload.cache\n"))
                  (fun content => fsWriteFile gitignorePath (.text content)))))))

/-- Decidable equality for `Except`, needed to `decide` concrete runs. -/
instance {ε α : Type} [DecidableEq ε] [DecidableEq α] : DecidableEq (Except ε α) := fun x y =>
  match x, y with
  | .ok a, .ok b =>
    if h : a = b then .isTrue (h ▸ rfl) else .isFalse (fun hc => h (Except.ok.inj hc))
  | .ok _, .error _ => .isFalse (fun hc => Except.noConfusion hc)
  | .error _, .ok _ => .isFalse (fun hc => Except.noConfusion hc)
  | .error e, .error f =>
    if h : e = f then .isTrue (h ▸ rfl) else .isFalse (fun hc => h (Except.error.inj hc))

/-- What a top-level invocation can do: either complete with a typed result
(and final disk and trace), or throw a JS exception. -/
inductive Outcome where
  | threw (message : String)
  | completed (result : Except CommandError ExecutionResult) (fs : Fs) (trace : List Event)
deriving DecidableEq, Repr

/-- The message of the `throw new Error(...)` in `executeCommand`'s
interactive-install branch (impl.ts lines 97-101), with the apostrophe and
backticks of the source text elided. -/
def interactiveInstallMessage : String :=
  "Sorry, havent gotten around to the interactive-mode install experience yet - use the --always flag for now, please."

/-- `executeCommand` (impl.ts lines 80-111): dispatch on the command.  The
install command with `interactive` mode throws before any `ResultAsync` is
built; every other branch completes with a typed result. -/
def executeCommand (rt : Runtime) (fs : Fs) : Outcome :=
  match rt.command with
  | .help => .completed (.ok { message := helpText }) fs []
  | .init =>
    match executeInit rt fs [] with
    | (r, fs1, tr1) => .completed r fs1 tr1
  | .configure p s =>
    match executeConfigure rt p s fs [] with
    | (r, fs1, tr1) => .completed r fs1 tr1
  | .install mode =>
    if mode = .interactive then .threw interactiveInstallMessage
    else
      match executeInstall rt mode fs [] with
      | (r, fs1, tr1) => .completed r fs1 tr1
  | .unload =>
    match executeUnload rt fs [] with
    | (r, fs1, tr1) => .completed r fs1 tr1

/-! ## Spec-side comparison definitions -/

/-- Modelled from the spec's words for comparison with `getPackageVersion`:
"union lookup across all four buckets, first match wins
(direct > indirect > test-direct > test-indirect)" — the version of the first
bucket in that order that contains the name, with no truthiness filtering. -/
def specFirstMatch (e : ElmJson) (p : String) : Option String :=
  (recLookup e.dependencies.direct p).orElse (fun _ =>
    (recLookup e.dependencies.indirect p).orElse (fun _ =>
      (recLookup e.dependencies.testDirect p).orElse (fun _ =>
        recLookup e.dependencies.testIndirect p)))

/-- Every version string in every bucket is non-empty (true of every real
manifest; JS truthiness makes `getPackageVersion` skip empty strings). -/
def depsNonEmptyVersions (d : Deps) : Prop :=
  (∀ kv ∈ d.direct, kv.2 ≠ "") ∧ (∀ kv ∈ d.indirect, kv.2 ≠ "") ∧
  (∀ kv ∈ d.testDirect, kv.2 ≠ "") ∧ (∀ kv ∈ d.testIndirect, kv.2 ≠ "")

/-! ## Concrete fixtures for counterexamples and witnesses -/

/-- A manifest whose `direct` bucket maps `p` to the empty string while
`indirect` maps it to `1.0.0`. -/
def elmJsonEmptyDirect : ElmJson :=
  { type := "application", sourceDirectories := ["src"], elmVersion := "0.19.1",
    dependencies :=
      { direct := [("p", "")], indirect := [("p", "1.0.0")],
        testDirect := [], testIndirect := [] } }

/-- A manifest whose only occurrence of `p` carries an empty version string. -/
def elmJsonOnlyEmpty : ElmJson :=
  { type := "application", sourceDirectories := ["src"], elmVersion := "0.19.1",
    dependencies :=
      { direct := [("p", "")], indirect := [], testDirect := [], testIndirect := [] } }

/-- An ordinary manifest declaring `elm/html` at `1.0.0` and
`elm/virtual-dom` at `1.0.3`. -/
def elmJsonBasic : ElmJson :=
  { type := "application", sourceDirectories := ["src"], elmVersion := "0.19.1",
    dependencies :=
      { direct := [("elm/html", "1.0.0")], indirect := [("elm/virtual-dom", "1.0.3")],
        testDirect := [], testIndirect := [] } }

/-- A registry with one pre-existing registration for `elm/html`. -/
def cfgBase : SideloadConfig :=
  { elmJsonPath := "elm.json", requireElmHome := false,
    sideloads := [{ originalPackageName := "elm/html", originalPackageVersion := "1.0.0",
                    sideloadedPackage := .relative "./old" }] }

/-- First source registered in the double-registration scenario. -/
def srcA : ConfigureSource := .relative "./patched-html"

/-- Second source registered in the double-registration scenario. -/
def srcB : ConfigureSource :=
  .github "https://github.com/lydell/html" "0123456789abcdef0123456789abcdef01234567"

/-- The registry after registering `elm/html` with `srcA` over `cfgBase`. -/
def cfgStep1 : SideloadConfig :=
  { elmJsonPath := "elm.json", requireElmHome := false,
    sideloads := [{ originalPackageName := "elm/html", originalPackageVersion := "1.0.0",
                    sideloadedPackage := srcA }] }

/-- The registry after registering `elm/html` with `srcB` over `cfgStep1`. -/
def cfgStep2 : SideloadConfig :=
  { elmJsonPath := "elm.json", requireElmHome := false,
    sideloads := [{ originalPackageName := "elm/html", originalPackageVersion := "1.0.0",
                    sideloadedPackage := srcB }] }

/-- The disk after a successful `gitClone` of `url` into the cache clone
directory (the materialization branch of `gitClone`, as a pure function). -/
def cloneStateOf (rt : Runtime) (url : String) (fs : Fs) : Fs :=
  let tgt := cachedRepoPathOf (cacheDirOf rt) url
  (((rt.git.repoFiles url).map (fun e => (pathJoin tgt e.1, e.2))).foldl
    (fun acc e => acc.setFile e.1 e.2) (fs.mkDirAdd tgt))

/-- A standard environment fixture: shell-provided elm home, project at
`/proj`, both documents present. -/
def envStd : Environment :=
  { elmHome := .fromShellEnv "/home/u/.elm" "/home/u/.elm/0.19.1/packages",
    cwd := "/proj", hasElmJson := true, hasSideloadConfig := true }

/-- A 40-character hexadecimal commit id fixture. -/
def sha40A : String := "0123456789abcdef0123456789abcdef01234567"

/-- A github repository URL fixture. -/
def urlA : String := "https://github.com/lydell/html"

/-- A git oracle in which every operation succeeds, branches resolve to
`sha40A`, clones materialize a one-file working tree, and every cached tree
is clean. -/
def gitOracleOk : GitOracle :=
  { cloneOk := fun _ _ => .ok (),
    repoFiles := fun _ => [("elm.json", .text "pkg-elm-json")],
    checkoutOk := fun _ _ => .ok (),
    statusPorcelain := fun _ => "",
    recentCommits := fun _ _ => [],
    pullOk := fun _ => .ok (),
    resolveBranch := fun _ _ => .ok sha40A,
    shaExistsAnswer := fun _ _ => true }

/-- A runtime fixture for the configure-with-branch scenario. -/
def rtC2 : Runtime :=
  { command := .configure "elm/html" (.github urlA (.branch "safe")),
    environment := envStd, git := gitOracleOk, promptAnswer := fun _ => none }

/-- A disk holding the manifest `elmJsonBasic` and the registry `cfgBase`
under `/proj`. -/
def fsProj : Fs :=
  { files := [(pathJoin "/proj" "elm.json", .elmJson elmJsonBasic),
              (pathJoin "/proj" "elm.sideload.json", .sideloadConfig cfgBase)],
    dirs := ["/proj"] }

/-- A runtime fixture for the configure-of-an-unknown-package scenario. -/
def rtC7 : Runtime :=
  { command := .configure "nope/missing" (.relative "./patched"),
    environment := envStd, git := gitOracleOk, promptAnswer := fun _ => none }

/-- A runtime fixture running install in dry-run mode. -/
def rtC4 : Runtime :=
  { command := .install .dryRun,
    environment := envStd, git := gitOracleOk, promptAnswer := fun _ => none }

/-- The registry value `createRegistration` produces on success: the upsert of
a sha-pinned github registration for `p` at version `v`. -/
def configAfterUpsert (cfg : SideloadConfig) (p v url sha : String) : SideloadConfig :=
  { cfg with
    sideloads :=
      (cfg.sideloads.filter (fun s => ¬ s.originalPackageName = p)) ++
      [{ originalPackageName := p, originalPackageVersion := v,
         sideloadedPackage := .github url sha }] }

/-- A computation that only ever appends to the event trace. -/
def extendsTrace {α : Type} (m : M α) : Prop :=
  ∀ fs tr, ∃ Δ, (m fs tr).2.2 = tr ++ Δ

/-- The per-registration chain outcomes of an always-mode install: each
registration's `installSideload` chain run in list order from the
post-validation state (configuration read, cache directory created), as
`executeInstall` does before combining. -/
def installOutcomes (rt : Runtime) (cfg : SideloadConfig) (pkgs : String) (fs : Fs) :
    List (Except CommandError AppliedChange) × Fs × List Event :=
  runAll (fun s => installSideload rt s (cacheDirOf rt) pkgs) cfg.sideloads
    (fs.mkDirAdd (cacheDirOf rt))
    [.fsRead (configPathOf rt), .fsMkdir (cacheDirOf rt)]

/-- A second 40-character commit id fixture. -/
def sha40B : String := "fedcba9876543210fedcba9876543210fedcba98"

/-- A second github repository URL fixture. -/
def urlB : String := "https://github.com/evancz/virtual-dom"

/-- A github registration of `elm/html` pinned to `sha40A` of `urlA`. -/
def regG : SideloadRegistration :=
  { originalPackageName := "elm/html", originalPackageVersion := "1.0.0",
    sideloadedPackage := .github urlA sha40A }

/-- A github registration of `elm/virtual-dom` pinned to `sha40B` of `urlB`. -/
def regG2 : SideloadRegistration :=
  { originalPackageName := "elm/virtual-dom", originalPackageVersion := "1.0.3",
    sideloadedPackage := .github urlB sha40B }

/-- A registry with the two github registrations `regG`, `regG2`. -/
def cfgC1 : SideloadConfig :=
  { elmJsonPath := "elm.json", requireElmHome := false, sideloads := [regG, regG2] }

/-- A git oracle in which cloning `urlA` succeeds but cloning any other URL
fails; used to fail the second registration's acquisition. -/
def gitOracleSecondCloneFails : GitOracle :=
  { gitOracleOk with
    cloneOk := fun url _ => if url = urlA then .ok () else .error (.cloneError url "fail") }

/-- A runtime fixture: always-mode install over `gitOracleSecondCloneFails`. -/
def rtC1 : Runtime :=
  { command := .install .always,
    environment := envStd, git := gitOracleSecondCloneFails, promptAnswer := fun _ => none }

/-- A disk with the manifest and the two-registration registry `cfgC1`. -/
def fsC1 : Fs :=
  { files := [(pathJoin "/proj" "elm.json", .elmJson elmJsonBasic),
              (pathJoin "/proj" "elm.sideload.json", .sideloadConfig cfgC1)],
    dirs := ["/proj"] }

/-- A registry with the single github registration `regG`. -/
def cfgC5 : SideloadConfig :=
  { elmJsonPath := "elm.json", requireElmHome := false, sideloads := [regG] }

/-- A git oracle whose cached working tree is dirty: `git status --porcelain`
reports a modified file, and the log reports two commits. -/
def gitOracleDirty : GitOracle :=
  { gitOracleOk with
    statusPorcelain := fun _ => " M src/Main.elm",
    recentCommits := fun _ _ => ["abc123f fix crash", "def456a initial"] }

/-- A runtime fixture: always-mode install over the dirty-tree oracle. -/
def rtC5 : Runtime :=
  { command := .install .always,
    environment := envStd, git := gitOracleDirty, promptAnswer := fun _ => none }

/-- A disk on which `urlA`'s clone is already cached (the clone directory
exists) and the registry holds the single github registration. -/
def fsC5 : Fs :=
  { files := [(pathJoin "/proj" "elm.json", .elmJson elmJsonBasic),
              (pathJoin "/proj" "elm.sideload.json", .sideloadConfig cfgC5)],
    dirs := ["/proj", "/proj/.elm.sideload.cache/lydell/html"] }

/-- The dirty-repo error text the run on `rtC5`/`fsC5` produces. -/
def dirtyStatusC5 : String :=
  "Repository at /proj/.elm.sideload.cache/lydell/html has uncommitted changes. Recent commits:\nabc123f fix crash\ndef456a initial"

/-- The slot directory of `elm/html` at `1.0.0` under the fixture packages
root. -/
def slotC6 : String := packageSlotDir "/home/u/.elm/0.19.1/packages" "elm" "html" "1.0.0"

/-- The source directory of the apply-step scenario. -/
def srcC6 : String := "/proj/patched"

/-- A disk whose `elm/html` slot holds a stale file and a compiled-artifact
cache file, and whose source directory holds a package file and version
control metadata (`.git/HEAD`). -/
def fsC6 : Fs :=
  { files := [(pathJoin slotC6 "stale.txt", .text "old"),
              (pathJoin slotC6 "artifacts.dat", .text "bin"),
              (pathJoin srcC6 "elm.json", .text "pkg"),
              (pathJoin srcC6 ".git/HEAD", .text "ref")],
    dirs := [srcC6] }

/-- A runtime fixture for the unload scenario. -/
def rtC8 : Runtime :=
  { command := .unload,
    environment := envStd, git := gitOracleOk, promptAnswer := fun _ => none }

/-- A registry with a populated-slot registration and an absent-slot
registration. -/
def cfgC8 : SideloadConfig :=
  { elmJsonPath := "elm.json", requireElmHome := false, sideloads := [regG, regG2] }

/-- A disk for the unload scenario: both documents, a populated `elm/html`
slot (with marker), an absent `elm/virtual-dom` slot, and a compiler build
cache directory. -/
def fsC8 : Fs :=
  { files := [(pathJoin "/proj" "elm.json", .elmJson elmJsonBasic),
              (pathJoin "/proj" "elm.sideload.json", .sideloadConfig cfgC8),
              (pathJoin (slotPath "/home/u/.elm/0.19.1/packages" regG) "elm.json", .text "pkg"),
              (pathJoin (slotPath "/home/u/.elm/0.19.1/packages" regG) ".elm-sideload", .text "")],
    dirs := ["/proj", "/proj/elm-stuff/0.19.1"] }

end ElmSideload

/-! # Theorems -/

namespace ElmSideload

/-- Helper: a lookup in a bucket of non-empty versions never returns the
empty string. -/
theorem recLookup_ne_empty {r : List (String × String)} {k s : String}
    (hr : ∀ kv ∈ r, kv.2 ≠ "") (h : recLookup r k = some s) : s ≠ "" := by
  unfold recLookup at h
  cases hf : r.find? (fun e => e.1 = k) with
  | none => rw [hf] at h; simp at h
  | some kv =>
    rw [hf] at h
    simp at h
    exact h ▸ hr kv (List.mem_of_find?_eq_some hf)

/-- Helper: a bucket lookup succeeds exactly when `in`-membership holds. -/
theorem recLookup_isSome_iff {r : List (String × String)} {k : String} :
    (recLookup r k).isSome ↔ recHas r k = true := by
  unfold recLookup recHas
  rw [Option.isSome_map', List.find?_isSome, List.any_eq_true]

/-- Helper: `find?` ignores a filter whose predicate is implied by the search
predicate. -/
theorem find?_filter_of_imp {α : Type} {p q : α → Bool} (l : List α)
    (h : ∀ a, p a = true → q a = true) : (l.filter q).find? p = l.find? p := by
  induction l with
  | nil => rfl
  | cons a t ih =>
    by_cases hq : q a = true
    · rw [List.filter_cons_of_pos hq]
      by_cases hp : p a = true
      · rw [List.find?_cons_of_pos _ hp, List.find?_cons_of_pos _ hp]
      · rw [List.find?_cons_of_neg _ (by simp [hp]), List.find?_cons_of_neg _ (by simp [hp]),
          ih]
    · have hp : ¬ p a = true := fun hpa => hq (h a hpa)
      rw [List.filter_cons_of_neg (by simp [hq]), List.find?_cons_of_neg _ (by simp [hp]),
        ih]

/-- Helper: removing an absent file is a no-op on the disk. -/
theorem removeFile_absent {fs : Fs} {p : String}
    (h : fs.files.any (fun e => e.1 = p) = false) : fs.removeFile p = fs := by
  cases fs with
  | mk files dirs =>
    have hf : ∀ a ∈ files, ¬ a.1 = p := by
      intro a ha hc
      have : files.any (fun e => e.1 = p) = true :=
        List.any_eq_true.mpr ⟨a, ha, by simp [hc]⟩
      simp [this] at h
    simp only [Fs.removeFile]
    congr 1
    exact List.filter_eq_self.mpr (fun a ha => by simp [hf a ha])

/-- Helper: deleting an absent subtree is a no-op on the disk. -/
theorem deleteTree_absent {fs : Fs} {p : String}
    (h : fs.pathExists p = false) : fs.deleteTree p = fs := by
  cases fs with
  | mk files dirs =>
    simp only [Fs.pathExists, Bool.or_eq_false_iff] at h
    obtain ⟨h1, h2⟩ := h
    have hf : ∀ a ∈ files, underDir p a.1 = false := by
      intro a ha
      by_contra hc
      rw [Bool.not_eq_false] at hc
      have : files.any (fun e => underDir p e.1) = true := List.any_eq_true.mpr ⟨a, ha, hc⟩
      simp [this] at h1
    have hd : ∀ a ∈ dirs, underDir p a = false := by
      intro a ha
      by_contra hc
      rw [Bool.not_eq_false] at hc
      have : dirs.any (fun d => underDir p d) = true := List.any_eq_true.mpr ⟨a, ha, hc⟩
      simp [this] at h2
    simp only [Fs.deleteTree]
    congr 1
    · exact List.filter_eq_self.mpr (fun a ha => by simp [hf a ha])
    · exact List.filter_eq_self.mpr (fun a ha => by simp [hd a ha])

/-- Helper: after deleting a subtree, nothing exists at its root. -/
theorem pathExists_deleteTree_self (fs : Fs) (p : String) :
    (fs.deleteTree p).pathExists p = false := by
  simp only [Fs.pathExists, Fs.deleteTree, Bool.or_eq_false_iff]
  constructor
  · rw [← Bool.not_eq_true, List.any_eq_true]
    rintro ⟨x, hx, hu⟩
    obtain ⟨-, hkeep⟩ := List.mem_filter.mp hx
    simp only [decide_not, Bool.not_eq_true', decide_eq_false_iff_not] at hkeep
    exact hkeep (by simpa using hu)
  · rw [← Bool.not_eq_true, List.any_eq_true]
    rintro ⟨x, hx, hu⟩
    obtain ⟨-, hkeep⟩ := List.mem_filter.mp hx
    simp only [decide_not, Bool.not_eq_true', decide_eq_false_iff_not] at hkeep
    exact hkeep (by simpa using hu)

/-- Helper: deleting a subtree cannot bring a path into existence. -/
theorem pathExists_deleteTree_false {fs : Fs} {q : String} (p : String)
    (h : fs.pathExists q = false) : (fs.deleteTree p).pathExists q = false := by
  simp only [Fs.pathExists, Bool.or_eq_false_iff] at h
  obtain ⟨h1, h2⟩ := h
  rw [← Bool.not_eq_true] at h1 h2
  simp only [List.any_eq_true] at h1 h2
  simp only [Fs.pathExists, Fs.deleteTree, Bool.or_eq_false_iff]
  constructor
  · rw [← Bool.not_eq_true, List.any_eq_true]
    rintro ⟨x, hx, hu⟩
    exact h1 ⟨x, (List.mem_filter.mp hx).1, hu⟩
  · rw [← Bool.not_eq_true, List.any_eq_true]
    rintro ⟨x, hx, hu⟩
    exact h2 ⟨x, (List.mem_filter.mp hx).1, hu⟩

/-- Helper: deleting a subtree leaves files outside it readable unchanged. -/
theorem lookupFile_deleteTree {fs : Fs} {p q : String}
    (h : underDir p q = false) : (fs.deleteTree p).lookupFile q = fs.lookupFile q := by
  simp only [Fs.lookupFile, Fs.deleteTree]
  rw [find?_filter_of_imp]
  intro a ha
  simp only [decide_eq_true_eq] at ha
  simp [decide_not, ha, h]

/-- Helper: a freshly written file reads back with its new content. -/
theorem lookupFile_setFile_self (fs : Fs) (p : String) (d : FileData) :
    (fs.setFile p d).lookupFile p = some d := by
  simp only [Fs.lookupFile, Fs.setFile]
  induction fs.files with
  | nil => simp [List.find?]
  | cons a t ih =>
    by_cases ha : a.1 = p
    · rw [List.filter_cons_of_neg (by simp [ha])]
      exact ih
    · rw [List.filter_cons_of_pos (by simp [ha]), List.cons_append,
        List.find?_cons_of_neg _ (by simp [ha])]
      exact ih

/-- Helper: the two `orElse`-recovered artifact deletions always succeed,
leave the disk with both files removed (removal of an absent file being a
no-op), and record exactly the two delete events. -/
theorem deleteDeleteRun (a1 a2 : String) (fs : Fs) (tr : List Event) :
    (M.orElse (M.bind (M.orElse (fsDeleteFile a1) (M.pure ()))
        (fun _ => fsDeleteFile a2)) (M.pure ())) fs tr
      = (.ok (), (fs.removeFile a1).removeFile a2,
         tr ++ [.fsDeleteFile a1, .fsDeleteFile a2]) := by
  by_cases h1 : fs.files.any (fun e => e.1 = a1) = true
  · by_cases h2 : (fs.removeFile a1).files.any (fun e => e.1 = a2) = true
    · simp [M.orElse, M.bind, M.pure, fsDeleteFile, h1, h2]
    · have h2f : (fs.removeFile a1).files.any (fun e => e.1 = a2) = false := by
        rw [← Bool.not_eq_true]; exact h2
      rw [removeFile_absent h2f]
      simp [M.orElse, M.bind, M.pure, fsDeleteFile, h1, h2f]
  · have h1f : fs.files.any (fun e => e.1 = a1) = false := by
      rw [← Bool.not_eq_true]; exact h1
    rw [removeFile_absent h1f]
    by_cases h2 : fs.files.any (fun e => e.1 = a2) = true
    · simp [M.orElse, M.bind, M.pure, fsDeleteFile, h1f, h2]
    · have h2f : fs.files.any (fun e => e.1 = a2) = false := by
        rw [← Bool.not_eq_true]; exact h2
      rw [removeFile_absent h2f]
      simp [M.orElse, M.bind, M.pure, fsDeleteFile, h1f, h2f]

/-- Helper: the apply step with a malformed package name fails immediately
with `invalidPackageName`, touching nothing. -/
theorem copyPackage_invalid (rt : Runtime) (srcP pn v pkgs : String)
    (fs : Fs) (tr : List Event)
    (h : (strSplit pn '/').getD 0 "" = "" ∨ (strSplit pn '/').getD 1 "" = "") :
    copyPackageToElmHome rt srcP pn v pkgs fs tr = (.error .invalidPackageName, fs, tr) := by
  simp only [List.getD, List.get?_eq_getElem?] at h
  simp only [copyPackageToElmHome]
  rw [if_pos (by rcases h with h | h <;> simp [List.getD, h])]
  rfl

/-- Helper: the full successful run of the apply step — both artifact files
deleted first (absence tolerated), the slot directory created, the source
merged over it, the zero-byte marker written last, in exactly that event
order. -/
theorem copyPackage_run_ok (rt : Runtime) (srcP pn v pkgs author name target : String)
    (fs : Fs) (tr : List Event)
    (hauthor : (strSplit pn '/').getD 0 "" = author)
    (hname : (strSplit pn '/').getD 1 "" = name)
    (hA : author ≠ "") (hN : name ≠ "")
    (htarget : target = packageSlotDir pkgs author name v)
    (hSrc : (((fs.removeFile (pathJoin target "artifacts.dat")).removeFile
        (pathJoin target "artifacts.x.dat")).mkDirAdd target).pathExists srcP = true) :
    copyPackageToElmHome rt srcP pn v pkgs fs tr =
      (.ok target,
       ((((fs.removeFile (pathJoin target "artifacts.dat")).removeFile
           (pathJoin target "artifacts.x.dat")).mkDirAdd target).copyTree srcP
           target).setFile (pathJoin target ".elm-sideload") (.text ""),
       tr ++ [.fsDeleteFile (pathJoin target "artifacts.dat"),
              .fsDeleteFile (pathJoin target "artifacts.x.dat"),
              .fsMkdir target, .fsCopyDir srcP target,
              .fsWrite (pathJoin target ".elm-sideload") (.text "")]) := by
  subst hauthor
  subst hname
  subst htarget
  simp only [List.getD, List.get?_eq_getElem?] at hA hN hSrc ⊢
  simp only [copyPackageToElmHome, List.getD]
  rw [if_neg (by simp [List.getD, hA, hN])]
  simp only [M.mapErr, M.map, M.bind]
  rw [deleteDeleteRun]
  simp [M.bind, M.pure, fsMkdir, fsCopyDir, fsWriteFile, hSrc]

/-- Helper: the failing run of the apply step — when the source path does not
exist, the copy fails and the whole chain collapses to `packageCopyFailed`,
after the deletions and `mkdir` already happened. -/
theorem copyPackage_run_fail (rt : Runtime) (srcP pn v pkgs author name target : String)
    (fs : Fs) (tr : List Event)
    (hauthor : (strSplit pn '/').getD 0 "" = author)
    (hname : (strSplit pn '/').getD 1 "" = name)
    (hA : author ≠ "") (hN : name ≠ "")
    (htarget : target = packageSlotDir pkgs author name v)
    (hSrc : (((fs.removeFile (pathJoin target "artifacts.dat")).removeFile
        (pathJoin target "artifacts.x.dat")).mkDirAdd target).pathExists srcP = false) :
    copyPackageToElmHome rt srcP pn v pkgs fs tr =
      (.error .packageCopyFailed,
       ((fs.removeFile (pathJoin target "artifacts.dat")).removeFile
           (pathJoin target "artifacts.x.dat")).mkDirAdd target,
       tr ++ [.fsDeleteFile (pathJoin target "artifacts.dat"),
              .fsDeleteFile (pathJoin target "artifacts.x.dat"),
              .fsMkdir target, .fsCopyDir srcP target]) := by
  subst hauthor
  subst hname
  subst htarget
  simp only [List.getD, List.get?_eq_getElem?] at hA hN hSrc ⊢
  simp only [copyPackageToElmHome, List.getD]
  rw [if_neg (by simp [List.getD, hA, hN])]
  simp only [M.mapErr, M.map, M.bind]
  rw [deleteDeleteRun]
  simp [M.bind, M.pure, fsMkdir, fsCopyDir, fsWriteFile, hSrc]

/-- C6 (counterexample): on the concrete disk `fsC6` the apply step succeeds
but does not replace the slot's contents wholesale — the pre-existing
`stale.txt`, absent from the source, survives — and does not exclude
version-control metadata — the source's `.git/HEAD` is copied into the slot
(the live `copyDirectoryRecursive` is `fs.cp` with no filter). -/
theorem applyStep_overlay_and_vcs_counterexample :
    (copyPackageToElmHome rtC4 srcC6 "elm/html" "1.0.0" "/home/u/.elm/0.19.1/packages"
        fsC6 []).1 = .ok slotC6 ∧
    ((copyPackageToElmHome rtC4 srcC6 "elm/html" "1.0.0" "/home/u/.elm/0.19.1/packages"
        fsC6 []).2.1).lookupFile (pathJoin slotC6 "stale.txt") = some (.text "old") ∧
    ((copyPackageToElmHome rtC4 srcC6 "elm/html" "1.0.0" "/home/u/.elm/0.19.1/packages"
        fsC6 []).2.1).lookupFile (pathJoin slotC6 ".git/HEAD") = some (.text "ref") ∧
    fsC6.lookupFile (pathJoin slotC6 ".git/HEAD") = none ∧
    ((copyPackageToElmHome rtC4 srcC6 "elm/html" "1.0.0" "/home/u/.elm/0.19.1/packages"
        fsC6 []).2.1).lookupFile (pathJoin slotC6 "artifacts.dat") = none ∧
    ((copyPackageToElmHome rtC4 srcC6 "elm/html" "1.0.0" "/home/u/.elm/0.19.1/packages"
        fsC6 []).2.1).lookupFile (pathJoin slotC6 ".elm-sideload") = some (.text "") := by
  decide

/-- C6 (amended): the successful apply step deletes `artifacts.dat` and
`artifacts.x.dat` before copying — with no hypothesis that either exists, so
absence is success — creates the slot directory, recursively merges the
source content over the slot (overlaying: files already in the slot and not
in the source survive, and nothing, version-control metadata included, is
excluded), and writes the zero-byte `.elm-sideload` marker after copying, in
exactly that event order; the marker reads back as the empty file. -/
theorem copyPackageToElmHome_contract
    (rt : Runtime) (srcP pn v pkgs author name target : String)
    (fs : Fs) (tr : List Event)
    (hauthor : (strSplit pn '/').getD 0 "" = author)
    (hname : (strSplit pn '/').getD 1 "" = name)
    (hA : author ≠ "") (hN : name ≠ "")
    (htarget : target = packageSlotDir pkgs author name v)
    (hSrc : (((fs.removeFile (pathJoin target "artifacts.dat")).removeFile
        (pathJoin target "artifacts.x.dat")).mkDirAdd target).pathExists srcP = true) :
    copyPackageToElmHome rt srcP pn v pkgs fs tr =
      (.ok target,
       ((((fs.removeFile (pathJoin target "artifacts.dat")).removeFile
           (pathJoin target "artifacts.x.dat")).mkDirAdd target).copyTree srcP
           target).setFile (pathJoin target ".elm-sideload") (.text ""),
       tr ++ [.fsDeleteFile (pathJoin target "artifacts.dat"),
              .fsDeleteFile (pathJoin target "artifacts.x.dat"),
              .fsMkdir target, .fsCopyDir srcP target,
              .fsWrite (pathJoin target ".elm-sideload") (.text "")]) ∧
    (((((fs.removeFile (pathJoin target "artifacts.dat")).removeFile
           (pathJoin target "artifacts.x.dat")).mkDirAdd target).copyTree srcP
           target).setFile (pathJoin target ".elm-sideload") (.text "")).lookupFile
        (pathJoin target ".elm-sideload") = some (.text "") :=
  ⟨copyPackage_run_ok rt srcP pn v pkgs author name target fs tr hauthor hname hA hN
      htarget hSrc,
    lookupFile_setFile_self _ _ _⟩

/-- C6 (witness): the apply-step contract applied to the concrete disk
`fsC6` (slot holding a stale file and an artifact cache file, source holding
a package file and `.git` metadata). -/
theorem copyPackageToElmHome_contract_witness :
    ((strSplit "elm/html" '/').getD 0 "" = "elm" ∧
      (strSplit "elm/html" '/').getD 1 "" = "html" ∧
      ("elm" : String) ≠ "" ∧ ("html" : String) ≠ "" ∧
      slotC6 = packageSlotDir "/home/u/.elm/0.19.1/packages" "elm" "html" "1.0.0" ∧
      (((fsC6.removeFile (pathJoin slotC6 "artifacts.dat")).removeFile
          (pathJoin slotC6 "artifacts.x.dat")).mkDirAdd slotC6).pathExists srcC6 = true) ∧
    copyPackageToElmHome rtC4 srcC6 "elm/html" "1.0.0" "/home/u/.elm/0.19.1/packages"
        fsC6 [] =
      (.ok slotC6,
       ((((fsC6.removeFile (pathJoin slotC6 "artifacts.dat")).removeFile
           (pathJoin slotC6 "artifacts.x.dat")).mkDirAdd slotC6).copyTree srcC6
           slotC6).setFile (pathJoin slotC6 ".elm-sideload") (.text ""),
       [] ++ [.fsDeleteFile (pathJoin slotC6 "artifacts.dat"),
              .fsDeleteFile (pathJoin slotC6 "artifacts.x.dat"),
              .fsMkdir slotC6, .fsCopyDir srcC6 slotC6,
              .fsWrite (pathJoin slotC6 ".elm-sideload") (.text "")]) :=
  ⟨⟨by decide, by decide, by decide, by decide, by decide, by decide⟩,
    (copyPackageToElmHome_contract rtC4 srcC6 "elm/html" "1.0.0"
      "/home/u/.elm/0.19.1/packages" "elm" "html" slotC6 fsC6 [] (by decide) (by decide)
      (by decide) (by decide) (by decide) (by decide)).1⟩

/-- C5 (counterexample): on the concrete runtime `rtC5` the cached working
tree is dirty — `git status --porcelain` reports `" M src/Main.elm"` — and
install fails with a `dirtyRepo` error, but the error's status text does not
carry that uncommitted-status output (`isClean` discards it; the message
holds only the repository path and the recent commits). -/
theorem dirtyRepo_missing_status_counterexample :
    executeInstall rtC5 .always fsC5 [] =
      (.error (.gitError (.dirtyRepo dirtyStatusC5)), fsC5.mkDirAdd (cacheDirOf rtC5),
       [.fsRead (configPathOf rtC5), .fsMkdir (cacheDirOf rtC5),
        .fsExists "/proj/.elm.sideload.cache/lydell/html",
        .gitIsClean "/proj/.elm.sideload.cache/lydell/html",
        .gitRecentCommits "/proj/.elm.sideload.cache/lydell/html" 5]) ∧
    rtC5.git.statusPorcelain "/proj/.elm.sideload.cache/lydell/html" = " M src/Main.elm" ∧
    strContainsStr dirtyStatusC5 " M src/Main.elm" = false := by
  decide

/-- C5 (amended): an install over a github registration whose repository is
already cached with a non-clean working tree fails with a `dirtyRepo` error
whose status text names the repository path and carries the last 5 commits
(but not the git-status output), and performs no `checkout` and no `pull`:
the whole trace ends at the 5-commit log query and the disk is left with only
the cache-directory `mkdir`. -/
theorem dirtyRepo_aborts_without_checkout_or_pull
    (rt : Runtime) (fs : Fs) (cfg : SideloadConfig) (pkgs url sha : String)
    (reg : SideloadRegistration)
    (hElm : rt.environment.hasElmJson = true)
    (hCfg : fs.lookupFile (configPathOf rt) = some (.sideloadConfig cfg))
    (hPkgs : elmHomePackagesPathResult rt.environment cfg = .ok pkgs)
    (hRegs : cfg.sideloads = [reg])
    (hSrcG : reg.sideloadedPackage = .github url sha)
    (hEx : (fs.mkDirAdd (cacheDirOf rt)).pathExists
        (cachedRepoPathOf (cacheDirOf rt) url) = true)
    (hDirty : ¬ strTrim (rt.git.statusPorcelain (cachedRepoPathOf (cacheDirOf rt) url)) = "") :
    executeInstall rt .always fs [] =
      (.error (.gitError (.dirtyRepo
         ("Repository at " ++ cachedRepoPathOf (cacheDirOf rt) url ++
          " has uncommitted changes. Recent commits:\n" ++
          strIntercalate "\n" (rt.git.recentCommits (cachedRepoPathOf (cacheDirOf rt) url) 5)))),
       fs.mkDirAdd (cacheDirOf rt),
       [.fsRead (configPathOf rt), .fsMkdir (cacheDirOf rt),
        .fsExists (cachedRepoPathOf (cacheDirOf rt) url),
        .gitIsClean (cachedRepoPathOf (cacheDirOf rt) url),
        .gitRecentCommits (cachedRepoPathOf (cacheDirOf rt) url) 5]) ∧
    (∀ d s, Event.gitCheckout d s ∉ (executeInstall rt .always fs []).2.2) ∧
    (∀ d, Event.gitPull d ∉ (executeInstall rt .always fs []).2.2) := by
  have heq : executeInstall rt .always fs [] =
      (.error (.gitError (.dirtyRepo
         ("Repository at " ++ cachedRepoPathOf (cacheDirOf rt) url ++
          " has uncommitted changes. Recent commits:\n" ++
          strIntercalate "\n" (rt.git.recentCommits (cachedRepoPathOf (cacheDirOf rt) url) 5)))),
       fs.mkDirAdd (cacheDirOf rt),
       [.fsRead (configPathOf rt), .fsMkdir (cacheDirOf rt),
        .fsExists (cachedRepoPathOf (cacheDirOf rt) url),
        .gitIsClean (cachedRepoPathOf (cacheDirOf rt) url),
        .gitRecentCommits (cachedRepoPathOf (cacheDirOf rt) url) 5]) := by
    simp [executeInstall, validateElmJsonExists, loadSideloadConfig, ensureCacheDirectory,
      performInstallation, runAll, installSideload, ensureRepoIsCached, fsExistsQ,
      gitIsClean, gitRecentCommits, combineResults, bustElmCache, M.map, M.bind,
      M.mapErr, M.pure, M.fail, M.ofExcept, fsReadFile, fsMkdir,
      hElm, hCfg, hPkgs, hRegs, hSrcG, hEx, hDirty]
  refine ⟨heq, ?_, ?_⟩
  · intro d s
    rw [heq]
    simp
  · intro d
    rw [heq]
    simp

/-- C5 (witness): the dirty-clone theorem applied to the concrete runtime
`rtC5` (dirty oracle) and disk `fsC5` (cached clone present). -/
theorem dirtyRepo_aborts_without_checkout_or_pull_witness :
    (rtC5.environment.hasElmJson = true ∧
      fsC5.lookupFile (configPathOf rtC5) = some (.sideloadConfig cfgC5) ∧
      elmHomePackagesPathResult rtC5.environment cfgC5 = .ok "/home/u/.elm/0.19.1/packages" ∧
      cfgC5.sideloads = [regG] ∧
      regG.sideloadedPackage = .github urlA sha40A ∧
      (fsC5.mkDirAdd (cacheDirOf rtC5)).pathExists
        (cachedRepoPathOf (cacheDirOf rtC5) urlA) = true ∧
      ¬ strTrim (rtC5.git.statusPorcelain (cachedRepoPathOf (cacheDirOf rtC5) urlA)) = "") ∧
    executeInstall rtC5 .always fsC5 [] =
      (.error (.gitError (.dirtyRepo
         ("Repository at " ++ cachedRepoPathOf (cacheDirOf rtC5) urlA ++
          " has uncommitted changes. Recent commits:\n" ++
          strIntercalate "\n" (rtC5.git.recentCommits (cachedRepoPathOf (cacheDirOf rtC5) urlA) 5)))),
       fsC5.mkDirAdd (cacheDirOf rtC5),
       [.fsRead (configPathOf rtC5), .fsMkdir (cacheDirOf rtC5),
        .fsExists (cachedRepoPathOf (cacheDirOf rtC5) urlA),
        .gitIsClean (cachedRepoPathOf (cacheDirOf rtC5) urlA),
        .gitRecentCommits (cachedRepoPathOf (cacheDirOf rtC5) urlA) 5]) :=
  ⟨⟨rfl, by decide, by decide, by decide, by decide, by decide, by decide⟩,
    (dirtyRepo_aborts_without_checkout_or_pull rtC5 fsC5 cfgC5
      "/home/u/.elm/0.19.1/packages" urlA sha40A regG rfl (by decide) (by decide)
      (by decide) (by decide) (by decide) (by decide)).1⟩

/-- Helper: `ResultAsync.combine` of all-successful results is the list of
successes. -/
theorem combineResults_map_ok {α β : Type} (f : β → α) (l : List β) :
    combineResults (l.map (fun b => Except.ok (f b))) = .ok (l.map f) := by
  induction l with
  | nil => rfl
  | cons a t ih => simp [combineResults, ih, Except.map]

/-- Helper: one unload step with a well-formed package name always succeeds,
leaves the disk with the slot subtree removed (a no-op when it was absent),
and records the existence check plus — only when the slot existed — the
recursive delete. -/
theorem removeSideloaded_run (pn v pkgs slot : String) (fs : Fs) (tr : List Event)
    (hA : (strSplit pn '/').getD 0 "" ≠ "") (hN : (strSplit pn '/').getD 1 "" ≠ "")
    (hslot : slot = packageSlotDir pkgs ((strSplit pn '/').getD 0 "")
        ((strSplit pn '/').getD 1 "") v) :
    removeSideloadedPackage pn v pkgs fs tr =
      (.ok { packageName := pn, action := .restored,
             source := "official package repository" },
       fs.deleteTree slot,
       tr ++ (.fsExists slot ::
         (if fs.pathExists slot then [.fsDeleteDir slot] else []))) := by
  subst hslot
  simp only [List.getD, List.get?_eq_getElem?] at hA hN ⊢
  simp only [removeSideloadedPackage, List.getD]
  rw [if_neg (by simp [List.getD, hA, hN])]
  by_cases hex : fs.pathExists (packageSlotDir pkgs ((strSplit pn '/')[0]?.getD "")
      ((strSplit pn '/')[1]?.getD "") v) = true
  · simp [M.mapErr, M.map, M.bind, M.pure, fsExistsQ, fsDeleteDir, hex]
  · have hexf : fs.pathExists (packageSlotDir pkgs ((strSplit pn '/')[0]?.getD "")
        ((strSplit pn '/')[1]?.getD "") v) = false := by
      rw [← Bool.not_eq_true]; exact hex
    rw [deleteTree_absent hexf]
    simp [M.mapErr, M.map, M.bind, M.pure, fsExistsQ, fsDeleteDir, hexf]

/-- Helper: the unload pass over a registration list: every step succeeds (for
well-formed names), the final disk is the fold of slot-subtree deletions, and
every recorded event is inherited or an existence check or a recursive
delete. -/
theorem runAllUnload_run (pkgs : String) :
    ∀ (regs : List SideloadRegistration) (fs : Fs) (tr : List Event),
    (∀ r ∈ regs, (strSplit r.originalPackageName '/').getD 0 "" ≠ "" ∧
        (strSplit r.originalPackageName '/').getD 1 "" ≠ "") →
    (runAll (fun s => removeSideloadedPackage s.originalPackageName
        s.originalPackageVersion pkgs) regs fs tr).1
      = regs.map (fun r => Except.ok
          (⟨r.originalPackageName, ChangeAction.restored,
            "official package repository"⟩ : AppliedChange)) ∧
    (runAll (fun s => removeSideloadedPackage s.originalPackageName
        s.originalPackageVersion pkgs) regs fs tr).2.1
      = regs.foldl (fun f r => f.deleteTree (slotPath pkgs r)) fs ∧
    (∀ ev ∈ (runAll (fun s => removeSideloadedPackage s.originalPackageName
        s.originalPackageVersion pkgs) regs fs tr).2.2,
      ev ∈ tr ∨ (∃ q, ev = Event.fsExists q) ∨ (∃ q, ev = Event.fsDeleteDir q))
  | [], fs, tr, _ => by
    refine ⟨rfl, rfl, ?_⟩
    intro ev hev
    exact Or.inl hev
  | r :: rs, fs, tr, hnames => by
    obtain ⟨hA, hN⟩ := hnames r (List.mem_cons_self r rs)
    have hstep := removeSideloaded_run r.originalPackageName r.originalPackageVersion
      pkgs (slotPath pkgs r) fs tr hA hN rfl
    have ih := runAllUnload_run pkgs rs (fs.deleteTree (slotPath pkgs r))
      (tr ++ (.fsExists (slotPath pkgs r) ::
        (if fs.pathExists (slotPath pkgs r) then [.fsDeleteDir (slotPath pkgs r)] else [])))
      (fun x hx => hnames x (List.mem_cons_of_mem r hx))
    rcases hR : runAll (fun s => removeSideloadedPackage s.originalPackageName
        s.originalPackageVersion pkgs) rs (fs.deleteTree (slotPath pkgs r))
        (tr ++ (.fsExists (slotPath pkgs r) ::
          (if fs.pathExists (slotPath pkgs r) then [.fsDeleteDir (slotPath pkgs r)] else [])))
      with ⟨ress, fs2, tr2⟩
    rw [hR] at ih
    obtain ⟨ih1, ih2, ih3⟩ := ih
    simp only at ih1 ih2
    have hrun : runAll (fun s => removeSideloadedPackage s.originalPackageName
        s.originalPackageVersion pkgs) (r :: rs) fs tr =
        (.ok (⟨r.originalPackageName, ChangeAction.restored,
            "official package repository"⟩ : AppliedChange) :: ress, fs2, tr2) := by
      simp only [runAll]
      rw [hstep, hR]
    rw [hrun]
    refine ⟨by simp [ih1], by simp [ih2], ?_⟩
    intro ev hev
    rcases ih3 ev hev with hin | hcls
    · rw [List.mem_append] at hin
      rcases hin with hin | hin
      · exact Or.inl hin
      · rcases List.mem_cons.mp hin with he | he
        · exact Or.inr (Or.inl ⟨slotPath pkgs r, he⟩)
        · by_cases hex : fs.pathExists (slotPath pkgs r) = true
          · rw [if_pos hex] at he
            rcases List.mem_singleton.mp he with he2
            exact Or.inr (Or.inr ⟨slotPath pkgs r, he2⟩)
          · rw [if_neg hex] at he
            exact absurd he (List.not_mem_nil ev)
    · exact Or.inr hcls

/-- Helper: a path absent from the disk stays absent through a fold of
subtree deletions. -/
theorem pathExists_foldl_false (pkgs : String) (q : String) :
    ∀ (regs : List SideloadRegistration) (fs : Fs), fs.pathExists q = false →
      (regs.foldl (fun f r => f.deleteTree (slotPath pkgs r)) fs).pathExists q = false
  | [], _, h => h
  | r :: rs, fs, h =>
    pathExists_foldl_false pkgs q rs (fs.deleteTree (slotPath pkgs r))
      (pathExists_deleteTree_false _ h)

/-- Helper: after the unload fold, no registration's slot exists. -/
theorem pathExists_foldl_deleteTree (pkgs : String) :
    ∀ (regs : List SideloadRegistration) (fs : Fs), ∀ r ∈ regs,
      (regs.foldl (fun f r => f.deleteTree (slotPath pkgs r)) fs).pathExists
        (slotPath pkgs r) = false
  | [], _, r, hr => absurd hr (List.not_mem_nil r)
  | a :: t, fs, r, hr => by
    rcases List.mem_cons.mp hr with he | ht
    · subst he
      exact pathExists_foldl_false pkgs (slotPath pkgs r) t _
        (pathExists_deleteTree_self fs (slotPath pkgs r))
    · exact pathExists_foldl_deleteTree pkgs t (fs.deleteTree (slotPath pkgs a)) r ht

/-- Helper: files outside every deleted slot survive the unload fold with
their content. -/
theorem lookupFile_foldl_deleteTree (pkgs : String) (q : String) :
    ∀ (regs : List SideloadRegistration) (fs : Fs),
      (∀ r ∈ regs, underDir (slotPath pkgs r) q = false) →
      (regs.foldl (fun f r => f.deleteTree (slotPath pkgs r)) fs).lookupFile q
        = fs.lookupFile q
  | [], _, _ => rfl
  | a :: t, fs, h => by
    rw [List.foldl_cons,
      lookupFile_foldl_deleteTree pkgs q t (fs.deleteTree (slotPath pkgs a))
        (fun r hr => h r (List.mem_cons_of_mem a hr)),
      lookupFile_deleteTree (h a (List.mem_cons_self a t))]

/-- C8: unload succeeds with one `restored` change per registration, deleting
each registration's target slot when it exists and treating an absent slot as
a no-op success; afterwards no registration's slot exists, the run performs
no file write at all, and the configuration file `elm.sideload.json` is left
with exactly its prior content, so the registration list is unchanged. -/
theorem unload_deletesSlots_preservesConfig
    (rt : Runtime) (fs : Fs) (cfg : SideloadConfig) (pkgs : String)
    (hCfg : fs.lookupFile (configPathOf rt) = some (.sideloadConfig cfg))
    (hPkgs : elmHomePackagesPathResult rt.environment cfg = .ok pkgs)
    (hNames : ∀ r ∈ cfg.sideloads, (strSplit r.originalPackageName '/').getD 0 "" ≠ "" ∧
        (strSplit r.originalPackageName '/').getD 1 "" ≠ "")
    (hNC : ∀ r ∈ cfg.sideloads, underDir (slotPath pkgs r) (configPathOf rt) = false)
    (hNE : underDir (elmStuffPathOf rt) (configPathOf rt) = false) :
    (executeUnload rt fs []).1 =
      .ok (⟨"Successfully unloaded " ++ toString cfg.sideloads.length ++ " sideloads",
            some (cfg.sideloads.map (fun r =>
              (⟨r.originalPackageName, ChangeAction.restored,
                "official package repository"⟩ : AppliedChange)))⟩ : ExecutionResult) ∧
    (∀ pth d, Event.fsWrite pth d ∉ (executeUnload rt fs []).2.2) ∧
    ((executeUnload rt fs []).2.1).lookupFile (configPathOf rt)
      = fs.lookupFile (configPathOf rt) ∧
    (∀ r ∈ cfg.sideloads,
      ((executeUnload rt fs []).2.1).pathExists (slotPath pkgs r) = false) := by
  by_cases hB : fs.pathExists (elmStuffPathOf rt) = true
  · rcases hR : runAll (fun s => removeSideloadedPackage s.originalPackageName
        s.originalPackageVersion pkgs) cfg.sideloads (fs.deleteTree (elmStuffPathOf rt))
        [.fsRead (configPathOf rt), .fsExists (elmStuffPathOf rt),
         .fsDeleteDir (elmStuffPathOf rt)] with ⟨ress, fs2, tr2⟩
    obtain ⟨h1, h2, h3⟩ := runAllUnload_run pkgs cfg.sideloads
      (fs.deleteTree (elmStuffPathOf rt))
      [.fsRead (configPathOf rt), .fsExists (elmStuffPathOf rt),
       .fsDeleteDir (elmStuffPathOf rt)] hNames
    rw [hR] at h1 h2 h3
    simp only at h1 h2 h3
    have hU : executeUnload rt fs [] =
        (.ok (⟨"Successfully unloaded " ++ toString cfg.sideloads.length ++ " sideloads",
            some (cfg.sideloads.map (fun r =>
              (⟨r.originalPackageName, ChangeAction.restored,
                "official package repository"⟩ : AppliedChange)))⟩ : ExecutionResult),
         fs2, tr2) := by
      simp only [executeUnload, M.map, M.bind, M.pure, M.fail, M.ofExcept, M.mapErr,
        loadSideloadConfig, fsReadFile, hCfg, hPkgs, bustElmCache, fsExistsQ,
        fsDeleteDir, performUnload, hB, if_true, List.cons_append, List.nil_append]
      rw [hR]
      simp [h1, combineResults_map_ok, List.length_map]
    refine ⟨by rw [hU], ?_, ?_, ?_⟩
    · intro pth d hmem
      rw [hU] at hmem
      simp only at hmem
      rcases h3 _ hmem with hin | ⟨q, hq⟩ | ⟨q, hq⟩
      · simp at hin
      · exact Event.noConfusion hq
      · exact Event.noConfusion hq
    · rw [hU]
      simp only [h2]
      rw [lookupFile_foldl_deleteTree pkgs (configPathOf rt) cfg.sideloads _ hNC,
        lookupFile_deleteTree hNE]
    · intro r hr
      rw [hU]
      simp only [h2]
      exact pathExists_foldl_deleteTree pkgs cfg.sideloads _ r hr
  · have hBf : fs.pathExists (elmStuffPathOf rt) = false := by
      rw [← Bool.not_eq_true]; exact hB
    rcases hR : runAll (fun s => removeSideloadedPackage s.originalPackageName
        s.originalPackageVersion pkgs) cfg.sideloads fs
        [.fsRead (configPathOf rt), .fsExists (elmStuffPathOf rt)] with ⟨ress, fs2, tr2⟩
    obtain ⟨h1, h2, h3⟩ := runAllUnload_run pkgs cfg.sideloads fs
      [.fsRead (configPathOf rt), .fsExists (elmStuffPathOf rt)] hNames
    rw [hR] at h1 h2 h3
    simp only at h1 h2 h3
    have hU : executeUnload rt fs [] =
        (.ok (⟨"Successfully unloaded " ++ toString cfg.sideloads.length ++ " sideloads",
            some (cfg.sideloads.map (fun r =>
              (⟨r.originalPackageName, ChangeAction.restored,
                "official package repository"⟩ : AppliedChange)))⟩ : ExecutionResult),
         fs2, tr2) := by
      simp only [executeUnload, M.map, M.bind, M.pure, M.fail, M.ofExcept, M.mapErr,
        loadSideloadConfig, fsReadFile, hCfg, hPkgs, bustElmCache, fsExistsQ,
        fsDeleteDir, performUnload, hBf, Bool.false_eq_true, if_false, List.cons_append, List.nil_append]
      rw [hR]
      simp [h1, combineResults_map_ok, List.length_map]
    refine ⟨by rw [hU], ?_, ?_, ?_⟩
    · intro pth d hmem
      rw [hU] at hmem
      simp only at hmem
      rcases h3 _ hmem with hin | ⟨q, hq⟩ | ⟨q, hq⟩
      · simp at hin
      · exact Event.noConfusion hq
      · exact Event.noConfusion hq
    · rw [hU]
      simp only [h2]
      rw [lookupFile_foldl_deleteTree pkgs (configPathOf rt) cfg.sideloads _ hNC]
    · intro r hr
      rw [hU]
      simp only [h2]
      exact pathExists_foldl_deleteTree pkgs cfg.sideloads _ r hr

/-- C8 (witness): the unload theorem applied to the concrete runtime `rtC8`
and disk `fsC8`, on which `elm/html`'s slot is populated and
`elm/virtual-dom`'s slot is absent. -/
theorem unload_deletesSlots_preservesConfig_witness :
    (fsC8.lookupFile (configPathOf rtC8) = some (.sideloadConfig cfgC8) ∧
      elmHomePackagesPathResult rtC8.environment cfgC8 = .ok "/home/u/.elm/0.19.1/packages" ∧
      (∀ r ∈ cfgC8.sideloads, (strSplit r.originalPackageName '/').getD 0 "" ≠ "" ∧
        (strSplit r.originalPackageName '/').getD 1 "" ≠ "") ∧
      (∀ r ∈ cfgC8.sideloads,
        underDir (slotPath "/home/u/.elm/0.19.1/packages" r) (configPathOf rtC8) = false) ∧
      underDir (elmStuffPathOf rtC8) (configPathOf rtC8) = false) ∧
    ((executeUnload rtC8 fsC8 []).2.1).lookupFile (configPathOf rtC8)
      = fsC8.lookupFile (configPathOf rtC8) :=
  ⟨⟨by decide, by decide, by decide, by decide, by decide⟩,
    (unload_deletesSlots_preservesConfig rtC8 fsC8 cfgC8 "/home/u/.elm/0.19.1/packages"
      (by decide) (by decide) (by decide) (by decide) (by decide)).2.2.1⟩

/-- C1 (counterexample): on the concrete runtime `rtC1` with two github
registrations, where the second registration's clone fails, the always-mode
install returns an error — but the first registration's package slot has
already been replaced (its copy event is in the trace and its marker file is
on the final disk, absent initially): acquisition is not completed for every
registration before any application, and the package-cache slots are not left
as they were. -/
theorem installAlways_partial_write_counterexample :
    (executeInstall rtC1 .always fsC1 []).1 = .error (.gitError (.cloneError urlB "fail")) ∧
    Event.fsCopyDir (cachedRepoPathOf (cacheDirOf rtC1) urlA)
        (slotPath "/home/u/.elm/0.19.1/packages" regG)
      ∈ (executeInstall rtC1 .always fsC1 []).2.2 ∧
    ((executeInstall rtC1 .always fsC1 []).2.1).lookupFile
        (pathJoin (slotPath "/home/u/.elm/0.19.1/packages" regG) ".elm-sideload")
      = some (.text "") ∧
    fsC1.lookupFile
        (pathJoin (slotPath "/home/u/.elm/0.19.1/packages" regG) ".elm-sideload")
      = none := by
  decide

/-- Helper: `M.pure` appends nothing. -/
theorem extends_pure {α : Type} (a : α) : extendsTrace (M.pure a) :=
  fun _ _ => ⟨[], by simp [M.pure]⟩

/-- Helper: `M.fail` appends nothing. -/
theorem extends_fail {α : Type} (e : CommandError) : extendsTrace (M.fail (α := α) e) :=
  fun _ _ => ⟨[], by simp [M.fail]⟩

/-- Helper: `M.ofExcept` appends nothing. -/
theorem extends_ofExcept {α : Type} (x : Except CommandError α) :
    extendsTrace (M.ofExcept x) :=
  fun _ _ => ⟨[], by simp [M.ofExcept]⟩

/-- Helper: `M.bind` of append-only computations is append-only. -/
theorem extends_bind {α β : Type} {x : M α} {f : α → M β}
    (hx : extendsTrace x) (hf : ∀ a, extendsTrace (f a)) :
    extendsTrace (M.bind x f) := by
  intro fs tr
  rcases hx2 : x fs tr with ⟨res, fs1, tr1⟩
  obtain ⟨Δ1, h1⟩ := hx fs tr
  rw [hx2] at h1
  simp only at h1
  cases res with
  | ok a =>
    obtain ⟨Δ2, h2⟩ := hf a fs1 tr1
    refine ⟨Δ1 ++ Δ2, ?_⟩
    simp only [M.bind, hx2]
    rw [h2, h1, List.append_assoc]
  | error e => exact ⟨Δ1, by simp [M.bind, hx2, h1]⟩

/-- Helper: `M.map` of an append-only computation is append-only. -/
theorem extends_map {α β : Type} (f : α → β) {x : M α} (hx : extendsTrace x) :
    extendsTrace (M.map f x) :=
  extends_bind hx (fun a => extends_pure (f a))

/-- Helper: `M.mapErr` of an append-only computation is append-only. -/
theorem extends_mapErr {α : Type} (f : CommandError → CommandError) {x : M α}
    (hx : extendsTrace x) : extendsTrace (M.mapErr f x) := by
  intro fs tr
  rcases hx2 : x fs tr with ⟨res, fs1, tr1⟩
  obtain ⟨Δ, h⟩ := hx fs tr
  rw [hx2] at h
  simp only at h
  cases res <;> exact ⟨Δ, by simp [M.mapErr, hx2, h]⟩

/-- Helper: `M.orElse` of append-only computations is append-only. -/
theorem extends_orElse {α : Type} {x y : M α} (hx : extendsTrace x)
    (hy : extendsTrace y) : extendsTrace (M.orElse x y) := by
  intro fs tr
  rcases hx2 : x fs tr with ⟨res, fs1, tr1⟩
  obtain ⟨Δ1, h1⟩ := hx fs tr
  rw [hx2] at h1
  simp only at h1
  cases res with
  | ok a => exact ⟨Δ1, by simp [M.orElse, hx2, h1]⟩
  | error e =>
    obtain ⟨Δ2, h2⟩ := hy fs1 tr1
    refine ⟨Δ1 ++ Δ2, ?_⟩
    simp only [M.orElse, hx2]
    rw [h2, h1, List.append_assoc]

/-- Helper: every adapter primitive appends exactly its own event. -/
theorem extends_fsReadFile (p : String) : extendsTrace (fsReadFile p) := by
  intro fs tr
  cases h : fs.lookupFile p <;> exact ⟨[.fsRead p], by simp [fsReadFile, h]⟩

/-- Helper: `fsWriteFile` appends exactly its own event. -/
theorem extends_fsWriteFile (p : String) (d : FileData) :
    extendsTrace (fsWriteFile p d) :=
  fun _ _ => ⟨[.fsWrite p d], rfl⟩

/-- Helper: `fsExistsQ` appends exactly its own event. -/
theorem extends_fsExistsQ (p : String) : extendsTrace (fsExistsQ p) :=
  fun _ _ => ⟨[.fsExists p], rfl⟩

/-- Helper: `fsMkdir` appends exactly its own event. -/
theorem extends_fsMkdir (p : String) : extendsTrace (fsMkdir p) :=
  fun _ _ => ⟨[.fsMkdir p], rfl⟩

/-- Helper: `fsDeleteFile` appends exactly its own event. -/
theorem extends_fsDeleteFile (p : String) : extendsTrace (fsDeleteFile p) := by
  intro fs tr
  by_cases h : fs.files.any (fun e => e.1 = p) = true
  · exact ⟨[.fsDeleteFile p], by simp [fsDeleteFile, h]⟩
  · have hf : fs.files.any (fun e => e.1 = p) = false := by
      rw [← Bool.not_eq_true]; exact h
    exact ⟨[.fsDeleteFile p], by simp [fsDeleteFile, hf]⟩

/-- Helper: `fsDeleteDir` appends exactly its own event. -/
theorem extends_fsDeleteDir (p : String) : extendsTrace (fsDeleteDir p) :=
  fun _ _ => ⟨[.fsDeleteDir p], rfl⟩

/-- Helper: `fsCopyDir` appends exactly its own event. -/
theorem extends_fsCopyDir (s t : String) : extendsTrace (fsCopyDir s t) := by
  intro fs tr
  by_cases h : fs.pathExists s = true
  · exact ⟨[.fsCopyDir s t], by simp [fsCopyDir, h]⟩
  · have hf : fs.pathExists s = false := by rw [← Bool.not_eq_true]; exact h
    exact ⟨[.fsCopyDir s t], by simp [fsCopyDir, hf]⟩

/-- Helper: `gitClone` appends exactly its own event. -/
theorem extends_gitClone (rt : Runtime) (url tgt : String) :
    extendsTrace (gitClone rt url tgt) := by
  intro fs tr
  cases h : rt.git.cloneOk url tgt <;> exact ⟨[.gitClone url tgt], by simp [gitClone, h]⟩

/-- Helper: `gitCheckout` appends exactly its own event. -/
theorem extends_gitCheckout (rt : Runtime) (d sha : String) :
    extendsTrace (gitCheckout rt d sha) := by
  intro fs tr
  cases h : rt.git.checkoutOk d sha <;> exact ⟨[.gitCheckout d sha], by simp [gitCheckout, h]⟩

/-- Helper: `gitPull` appends exactly its own event. -/
theorem extends_gitPull (rt : Runtime) (d : String) : extendsTrace (gitPull rt d) := by
  intro fs tr
  cases h : rt.git.pullOk d <;> exact ⟨[.gitPull d], by simp [gitPull, h]⟩

/-- Helper: `gitIsClean` appends exactly its own event. -/
theorem extends_gitIsClean (rt : Runtime) (d : String) : extendsTrace (gitIsClean rt d) :=
  fun _ _ => ⟨[.gitIsClean d], rfl⟩

/-- Helper: `gitRecentCommits` appends exactly its own event. -/
theorem extends_gitRecentCommits (rt : Runtime) (d : String) (n : Nat) :
    extendsTrace (gitRecentCommits rt d n) :=
  fun _ _ => ⟨[.gitRecentCommits d n], rfl⟩

/-- Helper: `gitResolveBranchToSha` appends exactly its own event. -/
theorem extends_gitResolveBranchToSha (rt : Runtime) (d b : String) :
    extendsTrace (gitResolveBranchToSha rt d b) := by
  intro fs tr
  cases h : rt.git.resolveBranch d b <;>
    exact ⟨[.gitResolveBranch d b], by simp [gitResolveBranchToSha, h]⟩

/-- Helper: `gitShaExistsQ` appends exactly its own event. -/
theorem extends_gitShaExistsQ (rt : Runtime) (d sha : String) :
    extendsTrace (gitShaExistsQ rt d sha) :=
  fun _ _ => ⟨[.gitShaExists d sha], rfl⟩

/-- Helper: the apply step only appends to the trace. -/
theorem extends_copyPackage (rt : Runtime) (srcP pn v pkgs : String) :
    extendsTrace (copyPackageToElmHome rt srcP pn v pkgs) := by
  intro fs tr
  simp only [copyPackageToElmHome]
  split
  · exact extends_fail _ fs tr
  · exact
      (extends_mapErr _ (extends_map _ (extends_bind
        (extends_orElse
          (extends_bind (extends_orElse (extends_fsDeleteFile _) (extends_pure ()))
            (fun _ => extends_fsDeleteFile _))
          (extends_pure ()))
        (fun _ => extends_bind (extends_fsMkdir _)
          (fun _ => extends_bind (extends_fsCopyDir _ _)
            (fun _ => extends_fsWriteFile _ _)))))) fs tr

/-- Helper: the acquisition step only appends to the trace. -/
theorem extends_ensureRepo (rt : Runtime) (url sha path : String) :
    extendsTrace (ensureRepoIsCached rt url sha path) := by
  simp only [ensureRepoIsCached]
  apply extends_bind (extends_fsExistsQ _)
  intro ex
  cases ex
  · simp only [Bool.false_eq_true, if_false]
    exact extends_map _ (extends_bind (extends_gitClone _ _ _)
      (fun _ => extends_gitCheckout _ _ _))
  · simp only [if_true]
    apply extends_bind
    · apply extends_bind (extends_gitIsClean _ _)
      intro isClean
      cases isClean
      · simp only [Bool.not_false, if_true]
        exact extends_bind (extends_gitRecentCommits _ _ _) (fun _ => extends_fail _)
      · simp only [Bool.not_true, Bool.false_eq_true, if_false]
        exact extends_pure ()
    · intro u
      apply extends_bind (extends_gitPull _ _)
      intro u2
      apply extends_bind (extends_gitShaExistsQ _ _ _)
      intro shaEx
      apply extends_bind
      · cases shaEx
        · simp only [Bool.not_false, if_true]
          exact extends_bind (extends_gitRecentCommits _ _ _) (fun _ => extends_fail _)
        · simp only [Bool.not_true, Bool.false_eq_true, if_false]
          exact extends_pure ()
      · intro u3
        exact extends_map _ (extends_gitCheckout _ _ _)

/-- Helper: one registration's install chain only appends to the trace. -/
theorem extends_installSideload (rt : Runtime) (r : SideloadRegistration)
    (cd pkgs : String) : extendsTrace (installSideload rt r cd pkgs) := by
  cases hsp : r.sideloadedPackage with
  | github url sha =>
    simp only [installSideload, hsp]
    exact extends_map _ (extends_bind (extends_ensureRepo _ _ _ _)
      (fun _ => extends_copyPackage _ _ _ _ _))
  | relative p =>
    simp only [installSideload, hsp]
    exact extends_map _ (extends_copyPackage _ _ _ _ _)

/-- Helper: `runAll` of append-only steps only appends to the trace. -/
theorem runAll_extends {α : Type} {step : SideloadRegistration → M α}
    (hstep : ∀ r, extendsTrace (step r)) :
    ∀ (rs : List SideloadRegistration) (fs : Fs) (tr : List Event),
      ∃ Δ, (runAll step rs fs tr).2.2 = tr ++ Δ
  | [], _, tr => ⟨[], by simp [runAll]⟩
  | r :: rs, fs, tr => by
    rcases h1 : step r fs tr with ⟨res, fs1, tr1⟩
    obtain ⟨Δ1, hΔ1⟩ := hstep r fs tr
    rw [h1] at hΔ1
    simp only at hΔ1
    obtain ⟨Δ2, hΔ2⟩ := runAll_extends hstep rs fs1 tr1
    rcases h2 : runAll step rs fs1 tr1 with ⟨ress, fs2, tr2⟩
    rw [h2] at hΔ2
    simp only at hΔ2
    refine ⟨Δ1 ++ Δ2, ?_⟩
    simp only [runAll, h1, h2]
    simp [hΔ2, hΔ1, List.append_assoc]

/-- Helper: a successful apply step recorded its copy into the slot. -/
theorem copyPackage_ok_copyEvent (rt : Runtime) (srcP pn v pkgs author name target : String)
    (fs : Fs) (tr : List Event) (t : String) (fs1 : Fs) (tr1 : List Event)
    (hauthor : (strSplit pn '/').getD 0 "" = author)
    (hname : (strSplit pn '/').getD 1 "" = name)
    (htarget : target = packageSlotDir pkgs author name v)
    (h : copyPackageToElmHome rt srcP pn v pkgs fs tr = (.ok t, fs1, tr1)) :
    Event.fsCopyDir srcP target ∈ tr1 := by
  by_cases hval : (author = "" ∨ name = "")
  · have hval' : (strSplit pn '/').getD 0 "" = "" ∨ (strSplit pn '/').getD 1 "" = "" := by
      rw [hauthor, hname]; exact hval
    rw [copyPackage_invalid rt srcP pn v pkgs fs tr hval'] at h
    exact absurd (congrArg (fun x => x.1) h) (by simp)
  · push_neg at hval
    obtain ⟨hA, hN⟩ := hval
    cases hex : (((fs.removeFile (pathJoin target "artifacts.dat")).removeFile
        (pathJoin target "artifacts.x.dat")).mkDirAdd target).pathExists srcP with
    | false =>
      rw [copyPackage_run_fail rt srcP pn v pkgs author name target fs tr hauthor hname
        hA hN htarget hex] at h
      exact absurd (congrArg (fun x => x.1) h) (by simp)
    | true =>
      rw [copyPackage_run_ok rt srcP pn v pkgs author name target fs tr hauthor hname
        hA hN htarget hex] at h
      have h3 := congrArg
        (fun x : Except CommandError String × Fs × List Event => x.2.2) h
      simp only at h3
      rw [← h3]
      simp

/-- Helper: a registration chain that returned a change copied something into
that registration's slot. -/
theorem installSideload_ok_copyEvent (rt : Runtime) (r : SideloadRegistration)
    (cd pkgs : String) (fs : Fs) (tr : List Event) (c : AppliedChange)
    (fs1 : Fs) (tr1 : List Event)
    (h : installSideload rt r cd pkgs fs tr = (.ok c, fs1, tr1)) :
    ∃ src, Event.fsCopyDir src (slotPath pkgs r) ∈ tr1 := by
  cases hsp : r.sideloadedPackage with
  | github url sha =>
    simp only [installSideload, hsp, M.map, M.bind] at h
    rcases h1 : ensureRepoIsCached rt url sha (cachedRepoPathOf cd url) fs tr
      with ⟨res1, fsa, tra⟩
    rw [h1] at h
    cases res1 with
    | error e => simp at h
    | ok clonedPath =>
      dsimp only at h
      rcases h2 : copyPackageToElmHome rt clonedPath r.originalPackageName
          r.originalPackageVersion pkgs fsa tra with ⟨res2, fsb, trb⟩
      rw [h2] at h
      cases res2 with
      | error e => simp at h
      | ok t =>
        have h3 := congrArg
          (fun x : Except CommandError AppliedChange × Fs × List Event => x.2.2) h
        simp only [M.pure] at h3
        rw [← h3]
        exact ⟨clonedPath,
          copyPackage_ok_copyEvent rt clonedPath r.originalPackageName
            r.originalPackageVersion pkgs _ _ (slotPath pkgs r) fsa tra t fsb trb
            rfl rfl rfl h2⟩
  | relative p =>
    simp only [installSideload, hsp, M.map, M.bind] at h
    rcases h2 : copyPackageToElmHome rt (pathResolve rt.environment.cwd p)
        r.originalPackageName r.originalPackageVersion pkgs fs tr with ⟨res2, fsb, trb⟩
    rw [h2] at h
    cases res2 with
    | error e => simp at h
    | ok t =>
      have h3 := congrArg
        (fun x : Except CommandError AppliedChange × Fs × List Event => x.2.2) h
      simp only [M.pure] at h3
      rw [← h3]
      exact ⟨pathResolve rt.environment.cwd p,
        copyPackage_ok_copyEvent rt (pathResolve rt.environment.cwd p)
          r.originalPackageName r.originalPackageVersion pkgs _ _ (slotPath pkgs r)
          fs tr t fsb trb rfl rfl rfl h2⟩

/-- Helper: in the linearized install pass, every registration whose own chain
succeeded has its slot-copy event in the final trace, whatever the other
chains did. -/
theorem runAllInstall_ok_copyEvent (rt : Runtime) (cd pkgs : String) :
    ∀ (rs : List SideloadRegistration) (fs : Fs) (tr : List Event),
      ∀ pr ∈ rs.zip (runAll (fun s => installSideload rt s cd pkgs) rs fs tr).1,
        ∀ c, pr.2 = .ok c →
          ∃ src, Event.fsCopyDir src (slotPath pkgs pr.1)
            ∈ (runAll (fun s => installSideload rt s cd pkgs) rs fs tr).2.2
  | [], fs, tr => by simp [runAll]
  | r :: rs, fs, tr => by
    rcases h1 : installSideload rt r cd pkgs fs tr with ⟨res, fsa, tra⟩
    rcases h2 : runAll (fun s => installSideload rt s cd pkgs) rs fsa tra
      with ⟨ress, fsb, trb⟩
    have hrun : runAll (fun s => installSideload rt s cd pkgs) (r :: rs) fs tr
        = (res :: ress, fsb, trb) := by
      simp only [runAll]
      rw [h1, h2]
    rw [hrun]
    intro pr hpr c hc
    simp only [List.zip_cons_cons] at hpr
    rcases List.mem_cons.mp hpr with he | ht
    · subst he
      simp only at hc
      subst hc
      obtain ⟨src, hsrc⟩ :=
        installSideload_ok_copyEvent rt r cd pkgs fs tr c fsa tra h1
      obtain ⟨Δ, hΔ⟩ := runAll_extends
        (fun x => extends_installSideload rt x cd pkgs) rs fsa tra
      rw [h2] at hΔ
      simp only at hΔ
      rw [hΔ]
      exact ⟨src, List.mem_append_left _ hsrc⟩
    · have hm : pr ∈ rs.zip (runAll (fun s => installSideload rt s cd pkgs) rs fsa tra).1 := by
        rw [h2]
        exact ht
      have ih := runAllInstall_ok_copyEvent rt cd pkgs rs fsa tra pr hm c hc
      rw [h2] at ih
      exact ih

/-- C1 (amended): in always-mode install each registration's acquisition is
immediately followed by its own application, with no barrier between
registrations: when any chain fails, the install returns the first chain
error and the disk is left in the state the chains produced — and every
registration whose own chain succeeded has already had its slot replaced (its
copy event is in the trace), so partial slot replacement does occur. -/
theorem installAlways_appliesPerRegistration
    (rt : Runtime) (fs : Fs) (cfg : SideloadConfig) (pkgs : String) (e : CommandError)
    (hElm : rt.environment.hasElmJson = true)
    (hCfg : fs.lookupFile (configPathOf rt) = some (.sideloadConfig cfg))
    (hPkgs : elmHomePackagesPathResult rt.environment cfg = .ok pkgs)
    (hErr : combineResults (installOutcomes rt cfg pkgs fs).1 = .error e) :
    executeInstall rt .always fs [] =
      (.error e, (installOutcomes rt cfg pkgs fs).2.1,
        (installOutcomes rt cfg pkgs fs).2.2) ∧
    ∀ pr ∈ cfg.sideloads.zip (installOutcomes rt cfg pkgs fs).1, ∀ c, pr.2 = .ok c →
      ∃ src, Event.fsCopyDir src (slotPath pkgs pr.1)
        ∈ (installOutcomes rt cfg pkgs fs).2.2 := by
  rcases hO : installOutcomes rt cfg pkgs fs with ⟨ress, fs2, tr2⟩
  have hO' : runAll (fun s => installSideload rt s (cacheDirOf rt) pkgs) cfg.sideloads
      (fs.mkDirAdd (cacheDirOf rt))
      [.fsRead (configPathOf rt), .fsMkdir (cacheDirOf rt)] = (ress, fs2, tr2) := hO
  rw [hO] at hErr
  simp only at hErr
  have hU : executeInstall rt .always fs [] = (.error e, fs2, tr2) := by
    simp only [executeInstall, M.map, M.bind, M.pure, M.fail, M.ofExcept, M.mapErr,
      validateElmJsonExists, hElm, if_true, loadSideloadConfig, fsReadFile, hCfg,
      hPkgs, ensureCacheDirectory, fsMkdir, List.cons_append, List.nil_append]
    rw [if_neg (by decide)]
    simp only [performInstallation, M.bind]
    rw [hO']
    simp [hErr]
  refine ⟨by rw [hU], ?_⟩
  intro pr hpr c hc
  have := runAllInstall_ok_copyEvent rt (cacheDirOf rt) pkgs cfg.sideloads
    (fs.mkDirAdd (cacheDirOf rt))
    [.fsRead (configPathOf rt), .fsMkdir (cacheDirOf rt)]
    pr (by rw [hO']; exact hpr) c hc
  rw [hO'] at this
  exact this

/-- C1 (witness): the amended per-registration theorem applied to the concrete
runtime `rtC1` and disk `fsC1`, on which the first registration's chain
succeeds and the second registration's clone fails. -/
theorem installAlways_appliesPerRegistration_witness :
    (rtC1.environment.hasElmJson = true ∧
      fsC1.lookupFile (configPathOf rtC1) = some (.sideloadConfig cfgC1) ∧
      elmHomePackagesPathResult rtC1.environment cfgC1 = .ok "/home/u/.elm/0.19.1/packages" ∧
      combineResults (installOutcomes rtC1 cfgC1 "/home/u/.elm/0.19.1/packages" fsC1).1
        = .error (.gitError (.cloneError urlB "fail"))) ∧
    executeInstall rtC1 .always fsC1 [] =
      (.error (.gitError (.cloneError urlB "fail")),
        (installOutcomes rtC1 cfgC1 "/home/u/.elm/0.19.1/packages" fsC1).2.1,
        (installOutcomes rtC1 cfgC1 "/home/u/.elm/0.19.1/packages" fsC1).2.2) :=
  ⟨⟨rfl, by decide, by decide, by decide⟩,
    (installAlways_appliesPerRegistration rtC1 fsC1 cfgC1 "/home/u/.elm/0.19.1/packages"
      (.gitError (.cloneError urlB "fail")) rfl (by decide) (by decide) (by decide)).1⟩

/-- C9 (counterexample): with the manifest `elmJsonEmptyDirect`, whose first
bucket (`direct`) contains `p` with an empty version string, the membership
check succeeds and `direct` contains `p`, yet `getPackageVersion` skips
`direct` and returns the `indirect` version — not the version from the first
bucket in the fixed order that contains the name.  With `elmJsonOnlyEmpty`
the membership check succeeds while the lookup returns nothing at all, so the
lookup does not succeed "exactly when" the membership check does. -/
theorem getPackageVersion_truthiness_counterexample :
    checkPackageInElmJson elmJsonEmptyDirect "p" = true ∧
    recHas elmJsonEmptyDirect.dependencies.direct "p" = true ∧
    recLookup elmJsonEmptyDirect.dependencies.direct "p" = some "" ∧
    getPackageVersion elmJsonEmptyDirect "p" = some "1.0.0" ∧
    checkPackageInElmJson elmJsonOnlyEmpty "p" = true ∧
    getPackageVersion elmJsonOnlyEmpty "p" = none := by
  decide

/-- C9 (amended): on a manifest whose version strings are all non-empty, the
version lookup used by configure searches the four buckets in the fixed order
direct, indirect, test-direct, test-indirect and returns the first bucket's
version (`specFirstMatch`, worded from the spec), and it succeeds exactly
when the membership check over the union of the four buckets succeeds. -/
theorem getPackageVersion_firstNonEmptyMatch (e : ElmJson) (p : String)
    (h : depsNonEmptyVersions e.dependencies) :
    getPackageVersion e p = specFirstMatch e p ∧
    ((getPackageVersion e p).isSome ↔ checkPackageInElmJson e p = true) := by
  obtain ⟨h1, h2, h3, h4⟩ := h
  have heq : getPackageVersion e p = specFirstMatch e p := by
    unfold getPackageVersion specFirstMatch
    cases hd : recLookup e.dependencies.direct p with
    | some s =>
      have hs := recLookup_ne_empty h1 hd
      simp [jsOr, Option.orElse, hs]
    | none =>
      cases hi : recLookup e.dependencies.indirect p with
      | some s =>
        have hs := recLookup_ne_empty h2 hi
        simp [jsOr, Option.orElse, hs]
      | none =>
        cases ht : recLookup e.dependencies.testDirect p with
        | some s =>
          have hs := recLookup_ne_empty h3 ht
          simp [jsOr, Option.orElse, hs]
        | none =>
          cases hu : recLookup e.dependencies.testIndirect p with
          | some s =>
            have hs := recLookup_ne_empty h4 hu
            simp [jsOr, Option.orElse, hs]
          | none =>
            simp [jsOr, Option.orElse]
  refine ⟨heq, ?_⟩
  rw [heq]
  unfold specFirstMatch checkPackageInElmJson
  cases hd : recLookup e.dependencies.direct p with
  | some s =>
    have : recHas e.dependencies.direct p = true := by
      rw [← recLookup_isSome_iff, hd]; rfl
    simp [Option.orElse, this]
  | none =>
    have hd0 : recHas e.dependencies.direct p = false := by
      rw [← Bool.not_eq_true, ← recLookup_isSome_iff, hd]; simp
    cases hi : recLookup e.dependencies.indirect p with
    | some s =>
      have : recHas e.dependencies.indirect p = true := by
        rw [← recLookup_isSome_iff, hi]; rfl
      simp [Option.orElse, this]
    | none =>
      have hi0 : recHas e.dependencies.indirect p = false := by
        rw [← Bool.not_eq_true, ← recLookup_isSome_iff, hi]; simp
      cases ht : recLookup e.dependencies.testDirect p with
      | some s =>
        have : recHas e.dependencies.testDirect p = true := by
          rw [← recLookup_isSome_iff, ht]; rfl
        simp [Option.orElse, this]
      | none =>
        have ht0 : recHas e.dependencies.testDirect p = false := by
          rw [← Bool.not_eq_true, ← recLookup_isSome_iff, ht]; simp
        cases hu : recLookup e.dependencies.testIndirect p with
        | some s =>
          have : recHas e.dependencies.testIndirect p = true := by
            rw [← recLookup_isSome_iff, hu]; rfl
          simp [Option.orElse, this]
        | none =>
          have hu0 : recHas e.dependencies.testIndirect p = false := by
            rw [← Bool.not_eq_true, ← recLookup_isSome_iff, hu]; simp
          simp [Option.orElse, hd0, hi0, ht0, hu0]

/-- C9 (witness): the amended lookup theorem applied to the concrete manifest
`elmJsonBasic` at `elm/virtual-dom`. -/
theorem getPackageVersion_firstNonEmptyMatch_witness :
    depsNonEmptyVersions elmJsonBasic.dependencies ∧
    (getPackageVersion elmJsonBasic "elm/virtual-dom" =
        specFirstMatch elmJsonBasic "elm/virtual-dom" ∧
      ((getPackageVersion elmJsonBasic "elm/virtual-dom").isSome ↔
        checkPackageInElmJson elmJsonBasic "elm/virtual-dom" = true)) :=
  ⟨by simp [depsNonEmptyVersions, elmJsonBasic],
    getPackageVersion_firstNonEmptyMatch elmJsonBasic "elm/virtual-dom"
      (by simp [depsNonEmptyVersions, elmJsonBasic])⟩

/-- C3: registering the same package twice (the upsert of
`createRegistration`, first with source `s1`, then with source `s2`) yields a
registration list whose entries for that package are exactly one entry
carrying `s2` — registration replaces, never duplicates. -/
theorem createRegistration_upsert_idempotent
    (e : ElmJson) (cfg cfg1 cfg2 : SideloadConfig) (p v : String)
    (s1 s2 : ConfigureSource)
    (hv : getPackageVersion e p = some v)
    (h1 : createRegistration e cfg p s1 = .ok cfg1)
    (h2 : createRegistration e cfg1 p s2 = .ok cfg2) :
    cfg2.sideloads.filter (fun r => r.originalPackageName = p) =
      [{ originalPackageName := p, originalPackageVersion := v,
         sideloadedPackage := s2 }] := by
  unfold createRegistration at h1 h2
  rw [hv] at h1 h2
  simp only [Except.ok.injEq] at h1 h2
  subst h1
  subst h2
  simp [List.filter_append, List.filter_filter]

/-- C3 (witness): the double-registration theorem applied to the concrete
manifest `elmJsonBasic`, registry `cfgBase`, and sources `srcA`, `srcB`. -/
theorem createRegistration_upsert_idempotent_witness :
    (getPackageVersion elmJsonBasic "elm/html" = some "1.0.0" ∧
      createRegistration elmJsonBasic cfgBase "elm/html" srcA = .ok cfgStep1 ∧
      createRegistration elmJsonBasic cfgStep1 "elm/html" srcB = .ok cfgStep2) ∧
    cfgStep2.sideloads.filter (fun r => r.originalPackageName = "elm/html") =
      [{ originalPackageName := "elm/html", originalPackageVersion := "1.0.0",
         sideloadedPackage := srcB }] :=
  ⟨⟨by decide, by decide, by decide⟩,
    createRegistration_upsert_idempotent elmJsonBasic cfgBase cfgStep1 cfgStep2
      "elm/html" "1.0.0" srcA srcB (by decide) (by decide) (by decide)⟩

/-- Helper: the resolution step only talks to git — it never emits a
file-write event. -/
theorem resolveInputToSource_no_fsWrite (rt : Runtime) (input : ConfigureInput)
    (fs : Fs) (res : Except CommandError ConfigureSource) (s1 : Fs) (tr1 : List Event)
    (h : resolveInputToSource rt input fs [] = (res, s1, tr1)) :
    ∀ pth d, Event.fsWrite pth d ∉ tr1 := by
  intro pth d hmem
  have htr : tr1 = (resolveInputToSource rt input fs []).2.2 := by rw [h]
  subst htr
  revert hmem
  cases input with
  | relative p =>
    simp [resolveInputToSource, M.pure]
  | github url pin =>
    cases pin with
    | sha sha =>
      cases hc : rt.git.cloneOk url (cachedRepoPathOf (cacheDirOf rt) url) with
      | error ge =>
        simp [resolveInputToSource, M.map, M.bind, gitClone, gitCheckout, hc]
      | ok u =>
        cases ho : rt.git.checkoutOk (cachedRepoPathOf (cacheDirOf rt) url) sha with
        | error ge =>
          simp [resolveInputToSource, M.map, M.bind, gitClone, gitCheckout, hc, ho]
        | ok u2 =>
          simp [resolveInputToSource, M.map, M.bind, gitClone, gitCheckout, M.pure,
            hc, ho]
    | branch branch =>
      cases hc : rt.git.cloneOk url (cachedRepoPathOf (cacheDirOf rt) url) with
      | error ge =>
        simp [resolveInputToSource, M.map, M.bind, gitClone, gitResolveBranchToSha,
          gitCheckout, hc]
      | ok u =>
        cases hr : rt.git.resolveBranch (cachedRepoPathOf (cacheDirOf rt) url) branch with
        | error ge =>
          simp [resolveInputToSource, M.map, M.bind, gitClone, gitResolveBranchToSha,
            gitCheckout, hc, hr]
        | ok sha =>
          cases ho : rt.git.checkoutOk (cachedRepoPathOf (cacheDirOf rt) url) sha with
          | error ge =>
            simp [resolveInputToSource, M.map, M.bind, gitClone, gitResolveBranchToSha,
              gitCheckout, hc, hr, ho]
          | ok u2 =>
            simp [resolveInputToSource, M.map, M.bind, gitClone, gitResolveBranchToSha,
              gitCheckout, M.pure, hc, hr, ho]

/-- C2: for a configure invocation whose source is `{url, branch}`, the
resolution step returns a github source pinned to the commit sha the branch
resolved to — a 40-character hexadecimal id under git's `rev-parse` contract
(hypothesis `h40`) — and the configuration configure persists is the upsert of
a sha-pinned registration; the persisted `ConfigureSource` type has no branch
form, so no persisted github registration carries a branch key. -/
theorem configureBranch_persistsShaForm
    (rt : Runtime) (url branch p sha v : String) (fs : Fs)
    (e : ElmJson) (cfg : SideloadConfig)
    (hClone : rt.git.cloneOk url (cachedRepoPathOf (cacheDirOf rt) url) = .ok ())
    (hRes : rt.git.resolveBranch (cachedRepoPathOf (cacheDirOf rt) url) branch = .ok sha)
    (hCo : rt.git.checkoutOk (cachedRepoPathOf (cacheDirOf rt) url) sha = .ok ())
    (h40 : isSha40 sha)
    (hE : (cloneStateOf rt url fs).lookupFile (elmJsonPathOf rt) = some (.elmJson e))
    (hChk : checkPackageInElmJson e p = true)
    (hV : getPackageVersion e p = some v)
    (hC : (cloneStateOf rt url fs).lookupFile (configPathOf rt) = some (.sideloadConfig cfg)) :
    resolveInputToSource rt (.github url (.branch branch)) fs [] =
      (.ok (.github url sha), cloneStateOf rt url fs,
        [.gitClone url (cachedRepoPathOf (cacheDirOf rt) url),
         .gitResolveBranch (cachedRepoPathOf (cacheDirOf rt) url) branch,
         .gitCheckout (cachedRepoPathOf (cacheDirOf rt) url) sha]) ∧
    executeConfigure rt p (.github url (.branch branch)) fs [] =
      (.ok { message := "Configured sideload for " ++ p },
        (cloneStateOf rt url fs).setFile (configPathOf rt)
          (.sideloadConfig (configAfterUpsert cfg p v url sha)),
        [.gitClone url (cachedRepoPathOf (cacheDirOf rt) url),
         .gitResolveBranch (cachedRepoPathOf (cacheDirOf rt) url) branch,
         .gitCheckout (cachedRepoPathOf (cacheDirOf rt) url) sha,
         .fsRead (elmJsonPathOf rt), .fsRead (configPathOf rt),
         .fsWrite (configPathOf rt) (.sideloadConfig (configAfterUpsert cfg p v url sha))]) ∧
    isSha40 sha := by
  have hres : resolveInputToSource rt (.github url (.branch branch)) fs [] =
      (.ok (.github url sha), cloneStateOf rt url fs,
        [.gitClone url (cachedRepoPathOf (cacheDirOf rt) url),
         .gitResolveBranch (cachedRepoPathOf (cacheDirOf rt) url) branch,
         .gitCheckout (cachedRepoPathOf (cacheDirOf rt) url) sha]) := by
    simp [resolveInputToSource, M.map, M.bind, M.pure, gitClone, gitResolveBranchToSha,
      gitCheckout, cloneStateOf, hClone, hRes, hCo]
  refine ⟨hres, ?_, h40⟩
  simp only [executeConfigure, M.bind]
  rw [hres]
  simp [loadElmJson, loadSideloadConfig, M.bind, M.mapErr, M.pure, M.fail,
    M.ofExcept, fsReadFile, createRegistration, saveConfig, M.map,
    fsWriteFile, configAfterUpsert, hE, hChk, hV, hC]

/-- C7: a configure invocation naming a package absent from all four manifest
dependency buckets fails with `packageNotFoundInElmJson`, and the
configuration file is not written: the run ends in the post-resolution state
`s1` (whose `elm.sideload.json` content equals the initial one), and the
whole trace contains no file-write event at all. -/
theorem configure_missingPackage_noConfigWrite
    (rt : Runtime) (p : String) (input : ConfigureInput) (fs s1 : Fs)
    (rs : ConfigureSource) (tr1 : List Event) (e : ElmJson)
    (hRes : resolveInputToSource rt input fs [] = (.ok rs, s1, tr1))
    (hE : s1.lookupFile (elmJsonPathOf rt) = some (.elmJson e))
    (hChk : checkPackageInElmJson e p = false)
    (hPres : s1.lookupFile (configPathOf rt) = fs.lookupFile (configPathOf rt)) :
    executeConfigure rt p input fs [] =
      (.error .packageNotFoundInElmJson, s1, tr1 ++ [.fsRead (elmJsonPathOf rt)]) ∧
    s1.lookupFile (configPathOf rt) = fs.lookupFile (configPathOf rt) ∧
    ∀ pth d, Event.fsWrite pth d ∉ tr1 ++ [.fsRead (elmJsonPathOf rt)] := by
  refine ⟨?_, hPres, ?_⟩
  · simp only [executeConfigure, M.bind]
    rw [hRes]
    simp [loadElmJson, M.bind, fsReadFile, M.pure, M.fail, hE, hChk]
  · intro pth d hmem
    rw [List.mem_append] at hmem
    rcases hmem with hmem | hmem
    · exact resolveInputToSource_no_fsWrite rt input fs (.ok rs) s1 tr1 hRes pth d hmem
    · simp at hmem

/-- C2 (witness): the branch-resolution theorem applied to the concrete
runtime `rtC2`, repository `urlA`, branch `safe` and disk `fsProj`. -/
theorem configureBranch_persistsShaForm_witness :
    (rtC2.git.cloneOk urlA (cachedRepoPathOf (cacheDirOf rtC2) urlA) = .ok () ∧
      rtC2.git.resolveBranch (cachedRepoPathOf (cacheDirOf rtC2) urlA) "safe" = .ok sha40A ∧
      rtC2.git.checkoutOk (cachedRepoPathOf (cacheDirOf rtC2) urlA) sha40A = .ok () ∧
      isSha40 sha40A ∧
      (cloneStateOf rtC2 urlA fsProj).lookupFile (elmJsonPathOf rtC2) =
        some (.elmJson elmJsonBasic) ∧
      checkPackageInElmJson elmJsonBasic "elm/html" = true ∧
      getPackageVersion elmJsonBasic "elm/html" = some "1.0.0" ∧
      (cloneStateOf rtC2 urlA fsProj).lookupFile (configPathOf rtC2) =
        some (.sideloadConfig cfgBase)) ∧
    resolveInputToSource rtC2 (.github urlA (.branch "safe")) fsProj [] =
      (.ok (.github urlA sha40A), cloneStateOf rtC2 urlA fsProj,
        [.gitClone urlA (cachedRepoPathOf (cacheDirOf rtC2) urlA),
         .gitResolveBranch (cachedRepoPathOf (cacheDirOf rtC2) urlA) "safe",
         .gitCheckout (cachedRepoPathOf (cacheDirOf rtC2) urlA) sha40A]) :=
  ⟨⟨rfl, rfl, rfl, by constructor <;> decide, by decide, by decide, by decide, by decide⟩,
    (configureBranch_persistsShaForm rtC2 urlA "safe" "elm/html" sha40A "1.0.0"
      fsProj elmJsonBasic cfgBase rfl rfl rfl (by constructor <;> decide)
      (by decide) (by decide) (by decide) (by decide)).1⟩

/-- C7 (witness): the manifest-gating theorem applied to the concrete runtime
`rtC7` (configuring `nope/missing`, which no bucket of `elmJsonBasic`
declares) with a relative source on the disk `fsProj`. -/
theorem configure_missingPackage_noConfigWrite_witness :
    (resolveInputToSource rtC7 (.relative "./patched") fsProj [] =
        (.ok (.relative "./patched"), fsProj, []) ∧
      fsProj.lookupFile (elmJsonPathOf rtC7) = some (.elmJson elmJsonBasic) ∧
      checkPackageInElmJson elmJsonBasic "nope/missing" = false ∧
      fsProj.lookupFile (configPathOf rtC7) = fsProj.lookupFile (configPathOf rtC7)) ∧
    executeConfigure rtC7 "nope/missing" (.relative "./patched") fsProj [] =
      (.error .packageNotFoundInElmJson, fsProj, [] ++ [.fsRead (elmJsonPathOf rtC7)]) :=
  ⟨⟨rfl, by decide, by decide, rfl⟩,
    (configure_missingPackage_noConfigWrite rtC7 "nope/missing" (.relative "./patched")
      fsProj fsProj (.relative "./patched") [] elmJsonBasic rfl (by decide)
      (by decide) rfl).1⟩

/-- C4 (counterexample): on the concrete runtime `rtC4` with the valid
configuration `cfgBase`, dry-run install performs a `mkdir` of the cache
directory — a filesystem write — contradicting "no clone, fetch, checkout,
copy, delete, mkdir, or writeFile calls beyond reading the configuration and
manifest". -/
theorem dryRun_performs_mkdir_counterexample :
    executeInstall rtC4 .dryRun fsProj [] =
      (.ok { message := installMessage .dryRun 1, changes := some (dryRunChanges cfgBase) },
        fsProj.mkDirAdd (cacheDirOf rtC4),
        [.fsRead (configPathOf rtC4), .fsMkdir (cacheDirOf rtC4)]) ∧
    Event.fsMkdir (cacheDirOf rtC4) ∈ (executeInstall rtC4 .dryRun fsProj []).2.2 := by
  constructor
  · decide
  · decide

/-- C4 (amended): on every valid configuration, dry-run install returns one
change per registration (the same length a real install would report) and its
whole trace is exactly one read of the configuration file followed by one
`mkdir` of the cache directory — no clone, fetch, checkout, copy, delete or
writeFile, and no write other than that single `mkdir`. -/
theorem dryRun_readsConfig_mkdirOnly
    (rt : Runtime) (fs : Fs) (cfg : SideloadConfig) (pkgs : String)
    (hElm : rt.environment.hasElmJson = true)
    (hCfg : fs.lookupFile (configPathOf rt) = some (.sideloadConfig cfg))
    (hPkgs : elmHomePackagesPathResult rt.environment cfg = .ok pkgs) :
    executeInstall rt .dryRun fs [] =
      (.ok { message := installMessage .dryRun (dryRunChanges cfg).length,
             changes := some (dryRunChanges cfg) },
        fs.mkDirAdd (cacheDirOf rt),
        [.fsRead (configPathOf rt), .fsMkdir (cacheDirOf rt)]) ∧
    (dryRunChanges cfg).length = cfg.sideloads.length := by
  constructor
  · simp [executeInstall, validateElmJsonExists, loadSideloadConfig, ensureCacheDirectory,
      M.bind, M.map, M.mapErr, M.pure, M.fail, M.ofExcept, fsReadFile, fsMkdir,
      hElm, hCfg, hPkgs]
  · simp [dryRunChanges]

/-- C4 (witness): the amended dry-run theorem applied to the concrete runtime
`rtC4`, disk `fsProj`, and configuration `cfgBase`. -/
theorem dryRun_readsConfig_mkdirOnly_witness :
    (rtC4.environment.hasElmJson = true ∧
      fsProj.lookupFile (configPathOf rtC4) = some (.sideloadConfig cfgBase) ∧
      elmHomePackagesPathResult rtC4.environment cfgBase = .ok "/home/u/.elm/0.19.1/packages") ∧
    executeInstall rtC4 .dryRun fsProj [] =
      (.ok { message := installMessage .dryRun (dryRunChanges cfgBase).length,
             changes := some (dryRunChanges cfgBase) },
        fsProj.mkDirAdd (cacheDirOf rtC4),
        [.fsRead (configPathOf rtC4), .fsMkdir (cacheDirOf rtC4)]) :=
  ⟨⟨rfl, by decide, by decide⟩,
    (dryRun_readsConfig_mkdirOnly rtC4 fsProj cfgBase "/home/u/.elm/0.19.1/packages"
      rfl (by decide) (by decide)).1⟩

/-- C10: for every runtime whose command is install with mode interactive,
`executeCommand` throws (the `Outcome.threw` branch) instead of completing
with a success value or a typed `CommandError`. -/
theorem executeCommand_interactiveInstall_throws
    (env : Environment) (g : GitOracle) (pa : String → Option String) (fs : Fs) :
    executeCommand
        { command := .install .interactive, environment := env, git := g,
          promptAnswer := pa } fs
      = .threw interactiveInstallMessage := rfl

end ElmSideload
